import Mathlib

/-!
Verification development for the MiniDatabaseApp columnar storage engine
(`src/unnamed/part_000`, a single C++ translation unit).  The engine consists
of a disk manager, an LRU buffer pool, a page-serialized B+ tree index, a
fixed-width paged column store, tables, and a database shell.

Modelling conventions:
* Machine bytes are `Nat` values `< 256`; a 4096-byte page is a total function
  `Nat → Nat` (bytes beyond index 4095 are never read or written).
* `std::variant<int32_t,int64_t,float,double,std::string,bool>` becomes the
  inductive `Value`.  `float`/`double` payloads are carried as their IEEE-754
  bit patterns (a `Nat` below `2^32` / `2^64`): the engine moves them with
  `memcpy`, so the bit pattern is exactly what is stored, and bit-identical
  round trips are what the code provides.  Comparison of floats is
  implemented on bit patterns following IEEE-754 ordering semantics
  (including NaN never comparing equal or less).
* `std::string` payloads are byte lists (C++ strings are byte strings).
* Stateful C++ (the buffer pool, the disk, tree node pages) becomes explicit
  state passing.  Unbounded recursion in the C++ (tree descent, leaf-chain
  walks) takes an explicit fuel argument; callers pass a bound that dominates
  the structure's depth, as the C++ recursion terminates only on acyclic
  structures.
-/

namespace MiniDB

/-- `PAGE_SIZE = 4096`, from the source constants. -/
def PAGE_SIZE : Nat := 4096

/-- `BUFFER_POOL_SIZE = 1000`, from the source constants. -/
def BUFFER_POOL_SIZE : Nat := 1000

/-- `BTREE_ORDER = 128`, from the source constants. -/
def BTREE_ORDER : Nat := 128

/-! ## Byte-level page model -/

/-- A page's byte content: byte index ↦ byte value. -/
def PageData : Type := Nat → Nat

/-- The all-zero page: what `DiskManager::readPage` produces for a page that
was never written (short read / missing file is zero-filled, lines 142-176). -/
def zeroPage : PageData := fun _ => 0

/-- Write the byte list `bs` into page data `p` starting at byte offset
`off` (models `std::memcpy(data + off, src, bs.length)`). -/
def writeBytes (p : PageData) (off : Nat) (bs : List Nat) : PageData :=
  fun i => if off ≤ i ∧ i < off + bs.length then bs.getD (i - off) 0 else p i

/-- Read `len` bytes from page data `p` at byte offset `off`. -/
def readBytes (p : PageData) (off len : Nat) : List Nat :=
  (List.range len).map (fun i => p (off + i))

theorem readBytes_length (p : PageData) (off len : Nat) :
    (readBytes p off len).length = len := by
  simp [readBytes]

theorem readBytes_writeBytes_same (p : PageData) (off : Nat) (bs : List Nat) :
    readBytes (writeBytes p off bs) off bs.length = bs := by
  apply List.ext_getElem
  · simp [readBytes]
  · intro i h1 h2
    simp only [readBytes, writeBytes, List.getElem_map, List.getElem_range]
    have hi : i < bs.length := by simpa [readBytes] using h1
    have : off ≤ off + i ∧ off + i < off + bs.length := by omega
    rw [if_pos this]
    simp [List.getD, List.getElem?_eq_getElem hi]

theorem readBytes_writeBytes_disjoint (p : PageData) (off off' len : Nat)
    (bs : List Nat) (h : off' + len ≤ off ∨ off + bs.length ≤ off') :
    readBytes (writeBytes p off bs) off' len = readBytes p off' len := by
  apply List.ext_getElem
  · simp [readBytes]
  · intro i h1 h2
    simp only [readBytes, List.getElem_map, List.getElem_range, writeBytes]
    have hi : i < len := by simpa [readBytes] using h1
    rw [if_neg]
    omega

/-! ## Data types and values (`DataType`, `Value`) -/

/-- The six supported data types (`enum class DataType`). -/
inductive DataType where
  | INT32 | INT64 | FLOAT | DOUBLE | STRING | BOOL
deriving DecidableEq

/-- `Value = std::variant<int32_t,int64_t,float,double,std::string,bool>`.
Float/double payloads are IEEE-754 bit patterns; string payloads are byte
lists. -/
inductive Value where
  | i32 (n : Int)
  | i64 (n : Int)
  | f32 (bits : Nat)
  | f64 (bits : Nat)
  | str (bytes : List Nat)
  | bool (b : Bool)
deriving DecidableEq

/-- `DiskBasedColumn::getRecordSize` (lines 918-928). -/
def getRecordSize : DataType → Nat
  | .INT32 => 4
  | .INT64 => 8
  | .FLOAT => 4
  | .DOUBLE => 8
  | .STRING => 256
  | .BOOL => 1

/-! ### Fixed-width integer byte coding (little-endian, the native order of
the target architecture; `memcpy` of the scalar's object representation). -/

/-- The `width` little-endian bytes of `n` (byte `i` is `n / 256^i % 256`,
the object representation `memcpy` copies on a little-endian target). -/
def natToBytes : Nat → Nat → List Nat
  | 0, _ => []
  | w + 1, n => n % 256 :: natToBytes w (n / 256)

/-- Reassemble a little-endian byte list into a `Nat`. -/
def bytesToNat : List Nat → Nat
  | [] => 0
  | b :: bs => b + 256 * bytesToNat bs

/-- Two's-complement representation of a signed integer in `width` bytes. -/
def intToUnsigned (width : Nat) (n : Int) : Nat :=
  (n % (2 ^ (8 * width) : Nat)).toNat

/-- Interpret `width` two's-complement bytes' value `m` as a signed integer. -/
def unsignedToInt (width m : Nat) : Int :=
  if m < 2 ^ (8 * width - 1) then (m : Int) else (m : Int) - (2 ^ (8 * width) : Nat)

theorem natToBytes_length (width n : Nat) : (natToBytes width n).length = width := by
  induction width generalizing n with
  | zero => rfl
  | succ w ih => simp [natToBytes, ih]

theorem natToBytes_lt (width n : Nat) : ∀ b ∈ natToBytes width n, b < 256 := by
  induction width generalizing n with
  | zero => simp [natToBytes]
  | succ w ih =>
    intro b hb
    simp only [natToBytes, List.mem_cons] at hb
    rcases hb with h | h
    · omega
    · exact ih _ _ h

theorem bytesToNat_natToBytes (width n : Nat) (h : n < 256 ^ width) :
    bytesToNat (natToBytes width n) = n := by
  induction width generalizing n with
  | zero => simp only [natToBytes, bytesToNat]; simp [pow_zero] at h; omega
  | succ w ih =>
    have hdiv : n / 256 < 256 ^ w := by
      rw [Nat.div_lt_iff_lt_mul (by norm_num)]
      calc n < 256 ^ (w + 1) := h
        _ = 256 ^ w * 256 := by ring
    simp [natToBytes, bytesToNat, ih _ hdiv, Nat.mod_add_div']
    omega

theorem unsignedToInt_intToUnsigned (width : Nat) (n : Int) (hw : 0 < width)
    (h1 : -(2 ^ (8 * width - 1) : Nat) ≤ n) (h2 : n < (2 ^ (8 * width - 1) : Nat)) :
    unsignedToInt width (intToUnsigned width n) = n := by
  have hsplit : (2 : Int) ^ (8 * width) = 2 ^ (8 * width - 1) * 2 := by
    have : 8 * width - 1 + 1 = 8 * width := by omega
    calc (2 : Int) ^ (8 * width) = 2 ^ (8 * width - 1 + 1) := by rw [this]
      _ = 2 ^ (8 * width - 1) * 2 := by ring
  have hmodpos : (0 : Int) ≤ n % (2 ^ (8 * width) : Nat) := by
    apply Int.emod_nonneg
    positivity
  have hmodlt : n % (2 ^ (8 * width) : Nat) < (2 ^ (8 * width) : Nat) := by
    apply Int.emod_lt_of_pos
    positivity
  have hcast : ((2 ^ (8 * width) : Nat) : Int) = 2 ^ (8 * width) := by push_cast; ring
  have hcast1 : ((2 ^ (8 * width - 1) : Nat) : Int) = 2 ^ (8 * width - 1) := by push_cast; ring
  rcases le_or_lt 0 n with hn | hn
  · have : n % (2 ^ (8 * width) : Nat) = n := by
      apply Int.emod_eq_of_lt hn
      rw [hcast]; rw [hcast1] at h2; omega
    simp only [unsignedToInt, intToUnsigned, this]
    have hn' : (n.toNat : Int) = n := Int.toNat_of_nonneg hn
    rw [if_pos]
    · exact hn'
    · rw [hcast1] at h2
      omega
  · have hge : (0 : Int) ≤ n + (2 ^ (8 * width) : Nat) := by
      rw [hcast]; rw [hsplit]; rw [hcast1] at h1; omega
    have hlt : n + ((2 ^ (8 * width) : Nat) : Int) < ((2 ^ (8 * width) : Nat) : Int) := by
      omega
    have : n % (2 ^ (8 * width) : Nat) = n + (2 ^ (8 * width) : Nat) := by
      have e1 : n % ((2 ^ (8 * width) : Nat) : Int)
          = (n + ((2 ^ (8 * width) : Nat) : Int)) % ((2 ^ (8 * width) : Nat) : Int) := by
        conv_lhs => rw [show n = (n + ((2 ^ (8 * width) : Nat) : Int))
          - ((2 ^ (8 * width) : Nat) : Int) by ring]
        rw [Int.sub_emod, Int.emod_self, Int.sub_zero, Int.emod_emod_of_dvd _ dvd_rfl]
      rw [e1, Int.emod_eq_of_lt hge hlt]
    simp only [unsignedToInt, intToUnsigned, this]
    have htn : ((n + (2 ^ (8 * width) : Nat)).toNat : Int) = n + (2 ^ (8 * width) : Nat) :=
      Int.toNat_of_nonneg hge
    rw [if_neg]
    · rw [htn]; ring
    · intro hcon
      have : ((n + (2 ^ (8 * width) : Nat)).toNat : Int) < ((2 ^ (8 * width - 1) : Nat) : Int) := by
        exact_mod_cast hcon
      rw [htn, hcast, hcast1] at this
      rw [hcast1] at h1
      have h2' : (2:Int) ^ (8 * width) = 2 ^ (8 * width - 1) * 2 := hsplit
      omega

theorem intToUnsigned_lt (width : Nat) (n : Int) :
    intToUnsigned width n < 2 ^ (8 * width) := by
  have hmodlt : n % (2 ^ (8 * width) : Nat) < (2 ^ (8 * width) : Nat) := by
    apply Int.emod_lt_of_pos
    positivity
  simp only [intToUnsigned]
  omega

/-! ### Value comparison (`std::variant` `==`/`<`, `compareValues`)

`std::variant` comparison is lexicographic on (alternative index, payload).
Float payloads compare with IEEE-754 semantics, reconstructed here on the
bit pattern: NaN compares neither equal nor less, `-0.0 == +0.0`, negative
patterns order in reverse of their magnitude bits. -/

/-- A 32-bit pattern denotes a NaN iff its exponent field is all ones and
its mantissa is nonzero. -/
def f32IsNaN (x : Nat) : Bool := x / 2 ^ 23 % 2 ^ 8 == 255 && x % 2 ^ 23 != 0

/-- Order key of a non-NaN 32-bit float pattern: patterns with the sign bit
clear order by magnitude bits, patterns with it set order reversed; both
zeros map to key 0. -/
def f32Key (x : Nat) : Int :=
  if x < 2 ^ 31 then (x : Int) else (2 ^ 31 : Int) - (x : Int)

/-- A 64-bit pattern denotes a NaN iff its exponent field is all ones and
its mantissa is nonzero. -/
def f64IsNaN (x : Nat) : Bool := x / 2 ^ 52 % 2 ^ 11 == 2047 && x % 2 ^ 52 != 0

/-- Order key of a non-NaN 64-bit float pattern. -/
def f64Key (x : Nat) : Int :=
  if x < 2 ^ 63 then (x : Int) else (2 ^ 63 : Int) - (x : Int)

/-- Lexicographic byte-string comparison, `std::string::operator<`. -/
def strLtB : List Nat → List Nat → Bool
  | [], [] => false
  | [], _ :: _ => true
  | _ :: _, [] => false
  | a :: as, b :: bs => if a < b then true else if b < a then false else strLtB as bs

/-- The `std::variant` alternative index of a value. -/
def Value.variantIdx : Value → Nat
  | .i32 _ => 0
  | .i64 _ => 1
  | .f32 _ => 2
  | .f64 _ => 3
  | .str _ => 4
  | .bool _ => 5

/-- `std::variant::operator==`: same alternative and equal payloads
(IEEE equality for floats). -/
def valueEqB : Value → Value → Bool
  | .i32 a, .i32 b => a == b
  | .i64 a, .i64 b => a == b
  | .f32 a, .f32 b => !f32IsNaN a && !f32IsNaN b && f32Key a == f32Key b
  | .f64 a, .f64 b => !f64IsNaN a && !f64IsNaN b && f64Key a == f64Key b
  | .str a, .str b => a == b
  | .bool a, .bool b => a == b
  | _, _ => false

/-- `std::variant::operator<`: lexicographic on (alternative index, payload). -/
def valueLtB : Value → Value → Bool
  | .i32 a, .i32 b => a < b
  | .i64 a, .i64 b => a < b
  | .f32 a, .f32 b => !f32IsNaN a && !f32IsNaN b && f32Key a < f32Key b
  | .f64 a, .f64 b => !f64IsNaN a && !f64IsNaN b && f64Key a < f64Key b
  | .str a, .str b => strLtB a b
  | .bool a, .bool b => !a && b
  | a, b => a.variantIdx < b.variantIdx

/-- `BPlusTreeIndex::compareValues` (lines 810-814): `0` when `a == b`,
`-1` when `a < b`, else `1`. -/
def compareValues (a b : Value) : Int :=
  if valueEqB a b then 0 else if valueLtB a b then -1 else 1

/-! ### Value ↔ page-byte coding (`writeValueToPage` / `readValueFromPage`
payload coding, lines 930-1007).

`std::get<T>` on a mismatched variant throws `std::bad_variant_access`, so a
mismatched append never completes in the C++.  The extractors below are made
total with a junk default; every theorem that decodes stored bytes carries a
well-formedness hypothesis ruling the mismatch out, and theorems about
lengths and shapes hold regardless of it. -/

/-- `std::get<int32_t>`, total with default 0. -/
def getI32 : Value → Int
  | .i32 n => n
  | _ => 0

/-- `std::get<int64_t>`, total with default 0. -/
def getI64 : Value → Int
  | .i64 n => n
  | _ => 0

/-- `std::get<float>` (bit pattern), total with default 0. -/
def getF32 : Value → Nat
  | .f32 b => b
  | _ => 0

/-- `std::get<double>` (bit pattern), total with default 0. -/
def getF64 : Value → Nat
  | .f64 b => b
  | _ => 0

/-- `std::get<std::string>` (byte list), total with default `""`. -/
def getStr : Value → List Nat
  | .str bs => bs
  | _ => []

/-- `std::get<bool>`, total with default `false`. -/
def getBool : Value → Bool
  | .bool b => b
  | _ => false

/-- `val.resize(255, '\0')`: truncate to, or zero-pad up to, 255 bytes. -/
def stringResize255 (bs : List Nat) : List Nat :=
  bs.take 255 ++ List.replicate (255 - bs.length) 0

/-- The fixed-width byte image of a value of declared type `t`, as
`writeValueToPage` lays it out: raw little-endian scalar bytes, or for
strings the 255 resized bytes followed by the terminating NUL that
`memcpy(ptr, val.c_str(), 256)` copies. -/
def encodeValue : DataType → Value → List Nat
  | .INT32, v => natToBytes 4 (intToUnsigned 4 (getI32 v))
  | .INT64, v => natToBytes 8 (intToUnsigned 8 (getI64 v))
  | .FLOAT, v => natToBytes 4 (getF32 v)
  | .DOUBLE, v => natToBytes 8 (getF64 v)
  | .STRING, v => stringResize255 (getStr v) ++ [0]
  | .BOOL, v => [if getBool v then 1 else 0]

/-- Decode the fixed-width byte image of declared type `t`, as
`readValueFromPage` does: reassemble the scalar, or for strings take the
256 bytes and cut at the first NUL (`val = val.c_str()`).  A `bool` byte is
read as nonzero (the engine only ever writes 0 or 1 there). -/
def decodeValue : DataType → List Nat → Value
  | .INT32, bs => .i32 (unsignedToInt 4 (bytesToNat bs))
  | .INT64, bs => .i64 (unsignedToInt 8 (bytesToNat bs))
  | .FLOAT, bs => .f32 (bytesToNat bs)
  | .DOUBLE, bs => .f64 (bytesToNat bs)
  | .STRING, bs => .str (bs.takeWhile (fun b => b != 0))
  | .BOOL, bs => .bool (bs.getD 0 0 != 0)

/-- Well-formedness of a value for a declared column type: the variant
matches the type (otherwise `std::get` throws) and the payload is in the
range the C++ scalar type enforces. -/
def valueWF (t : DataType) (v : Value) : Bool :=
  match t, v with
  | .INT32, .i32 n => decide (-(2 ^ 31 : Int) ≤ n ∧ n < 2 ^ 31)
  | .INT64, .i64 n => decide (-(2 ^ 63 : Int) ≤ n ∧ n < 2 ^ 63)
  | .FLOAT, .f32 b => decide (b < 2 ^ 32)
  | .DOUBLE, .f64 b => decide (b < 2 ^ 64)
  | .STRING, .str bs => bs.all (fun b => b < 256)
  | .BOOL, .bool _ => true
  | _, _ => false

/-- The value a stored record denotes after write normalization: strings
are truncated to 255 bytes and cut at the first NUL; every other type is
stored exactly. -/
def normalizeValue (t : DataType) (v : Value) : Value :=
  match t, v with
  | .STRING, .str bs => .str ((bs.take 255).takeWhile (fun b => b != 0))
  | _, v => v

/-- The value a slot of declared type `t` that was never written decodes
to: the all-zero byte image of the type. -/
def zeroValueOf : DataType → Value
  | .INT32 => .i32 0
  | .INT64 => .i64 0
  | .FLOAT => .f32 0
  | .DOUBLE => .f64 0
  | .STRING => .str []
  | .BOOL => .bool false

theorem stringResize255_length (bs : List Nat) : (stringResize255 bs).length = 255 := by
  simp only [stringResize255, List.length_append, List.length_take, List.length_replicate]
  omega

theorem encodeValue_length (t : DataType) (v : Value) :
    (encodeValue t v).length = getRecordSize t := by
  cases t <;>
    simp [encodeValue, getRecordSize, natToBytes_length, stringResize255_length]

theorem takeWhile_append_nil {p : Nat → Bool} (xs ys : List Nat)
    (h : ys.takeWhile p = []) : (xs ++ ys).takeWhile p = xs.takeWhile p := by
  induction xs with
  | nil => simpa using h
  | cons x xs ih =>
    by_cases hx : p x
    · simp [List.takeWhile_cons, hx, ih]
    · simp [List.takeWhile_cons, hx]

theorem decodeValue_encodeValue (t : DataType) (v : Value) (h : valueWF t v = true) :
    decodeValue t (encodeValue t v) = normalizeValue t v := by
  cases t <;> cases v <;> simp [valueWF] at h
  case INT32.i32 n =>
    simp only [encodeValue, decodeValue, getI32, normalizeValue]
    rw [bytesToNat_natToBytes 4 _ (by
      have := intToUnsigned_lt 4 n; norm_num at this ⊢; omega)]
    rw [unsignedToInt_intToUnsigned 4 n (by norm_num)
      (by norm_num; omega) (by norm_num; omega)]
  case INT64.i64 n =>
    simp only [encodeValue, decodeValue, getI64, normalizeValue]
    rw [bytesToNat_natToBytes 8 _ (by
      have := intToUnsigned_lt 8 n; norm_num at this ⊢; omega)]
    rw [unsignedToInt_intToUnsigned 8 n (by norm_num)
      (by norm_num; omega) (by norm_num; omega)]
  case FLOAT.f32 b =>
    simp only [encodeValue, decodeValue, getF32, normalizeValue]
    rw [bytesToNat_natToBytes 4 _ (by norm_num; omega)]
  case DOUBLE.f64 b =>
    simp only [encodeValue, decodeValue, getF64, normalizeValue]
    rw [bytesToNat_natToBytes 8 _ (by norm_num; omega)]
  case STRING.str bs =>
    simp only [encodeValue, decodeValue, getStr, normalizeValue, stringResize255]
    rw [List.append_assoc, takeWhile_append_nil]
    cases h255 : 255 - bs.length with
    | zero => simp
    | succ k => simp [List.replicate, List.takeWhile_cons]
  case BOOL.bool b =>
    cases b <;> simp [encodeValue, decodeValue, getBool, normalizeValue]

theorem decodeValue_zero (t : DataType) :
    decodeValue t (List.replicate (getRecordSize t) 0) = zeroValueOf t := by
  cases t <;> decide

theorem readBytes_zeroPage (off len : Nat) :
    readBytes zeroPage off len = List.replicate len 0 := by
  apply List.ext_getElem
  · simp [readBytes]
  · intro i h1 h2
    simp [readBytes, zeroPage]

/-! ## Disk manager and buffer pool (`DiskManager`, `BufferPoolManager`)

A page is identified by `(file name, page id)`.  The disk is the set of
pages ever written via `DiskManager::writePage`; `readPage` of a page that
was never written yields all zeros (short read zero-fill, lines 142-176).
The pool is an association list of resident pages plus the LRU list, most
recently used first (`lru_list_` with `push_front`/`back` eviction).  The
C++ nests `pages_` as file → page-id → page; the flattened association
list over `(file, page-id)` keys carries the same information, and
`getTotalPages` (the sum of the per-file sizes) becomes its length. -/

/-- A page's identity: `(file name, page id)`. -/
abbrev FileKey := String × Nat

/-- First-match lookup in an association list (`unordered_map::find`). -/
def lookupA {β : Type} : List (FileKey × β) → FileKey → Option β
  | [], _ => none
  | (k, v) :: rest, k' => if k' = k then some v else lookupA rest k'

/-- Remove the first entry with the given key (`unordered_map::erase`). -/
def eraseA {β : Type} : List (FileKey × β) → FileKey → List (FileKey × β)
  | [], _ => []
  | (k, v) :: rest, k' => if k' = k then rest else (k, v) :: eraseA rest k'

/-- Update every entry with the given key in place. -/
def updA {β : Type} : List (FileKey × β) → FileKey → (β → β) → List (FileKey × β)
  | [], _, _ => []
  | (k, v) :: rest, k', f =>
    if k' = k then (k, f v) :: updA rest k' f else (k, v) :: updA rest k' f

/-- An in-memory page of the buffer pool: its 4096 bytes and the dirty
flag (`struct Page`, minus the redundant `page_id` copy). -/
structure PoolPage where
  data : PageData
  is_dirty : Bool

/-- The storage substrate's state: resident pages, the LRU list (most
recent first), and the disk image. -/
structure Sys where
  pool : List (FileKey × PoolPage)
  lru : List FileKey
  disk : List (FileKey × PageData)

/-- The empty substrate: nothing resident, nothing on disk (files are
created truncated, lines 87-88). -/
def Sys.init : Sys := { pool := [], lru := [], disk := [] }

/-- `DiskManager::readPage`: the page's bytes if ever written, else zeros. -/
def diskRead (s : Sys) (k : FileKey) : PageData :=
  (lookupA s.disk k).getD zeroPage

/-- The byte content of page `k` as the next `fetchPage` would observe it:
the resident copy if any, else the disk image. -/
def observe (s : Sys) (k : FileKey) : PageData :=
  match lookupA s.pool k with
  | some p => p.data
  | none => diskRead s k

/-- `List.erase` pinned at the decidable-equality `BEq` instance (used
consistently to keep all erasures at one instance). -/
abbrev eraseL (l : List FileKey) (k : FileKey) : List FileKey :=
  @List.erase FileKey instBEqOfDecidableEq l k

/-- `BufferPoolManager::updateLRU` (lines 257-267): move a resident key to
the front of the LRU list. -/
def updateLRU (s : Sys) (k : FileKey) : Sys :=
  if k ∈ s.lru then { s with lru := k :: eraseL s.lru k } else s

/-- `BufferPoolManager::flushPage` (lines 226-235): if resident and dirty,
write through the disk manager and clear the flag. -/
def flushPage (s : Sys) (k : FileKey) : Sys :=
  match lookupA s.pool k with
  | some p =>
    if p.is_dirty then
      { pool := updA s.pool k (fun q => { q with is_dirty := false }),
        lru := s.lru,
        disk := (k, p.data) :: s.disk }
    else s
  | none => s

/-- `BufferPoolManager::evictPage` (lines 269-280): no-op on an empty LRU
list; otherwise flush the least recently used page and drop it. -/
def evictPage (s : Sys) : Sys :=
  match s.lru.getLast? with
  | none => s
  | some k =>
    let s1 := flushPage s k
    { pool := eraseA s1.pool k, lru := s1.lru.dropLast, disk := s1.disk }

/-- `BufferPoolManager::fetchPage` (lines 194-224): return the resident
copy after an LRU promotion, or read the page from disk (never dirty),
evicting first when the pool is full, and admit it. -/
def fetchPage (s : Sys) (k : FileKey) : PoolPage × Sys :=
  match lookupA s.pool k with
  | some p => (p, updateLRU s k)
  | none =>
    let pg : PoolPage := { data := diskRead s k, is_dirty := false }
    let s1 := if s.pool.length ≥ BUFFER_POOL_SIZE then evictPage s else s
    (pg, { pool := (k, pg) :: s1.pool, lru := k :: s1.lru, disk := s1.disk })

/-- The disk image after writing back every dirty entry of `pool`
(the loop body of `flushAllPages`, lines 237-246). -/
def flushList (pool : List (FileKey × PoolPage)) (disk : List (FileKey × PageData)) :
    List (FileKey × PageData) :=
  match pool with
  | [] => disk
  | (k, p) :: rest => flushList rest (if p.is_dirty then (k, p.data) :: disk else disk)

/-- Clear a page's dirty flag. -/
def clearDirty (p : PoolPage) : PoolPage :=
  { data := p.data, is_dirty := false }

/-- `BufferPoolManager::flushAllPages`: write back every dirty resident
page and clear all dirty flags. -/
def flushAllPages (s : Sys) : Sys :=
  { pool := s.pool.map (fun kp => (kp.1, clearDirty kp.2)),
    lru := s.lru,
    disk := flushList s.pool s.disk }

/-- A client write through a freshly fetched handle: fetch the page, apply
`g` to its bytes, and mark it dirty (the `fetchPage` / mutate /
`is_dirty = true` pattern of `DiskBasedColumn::append` lines 849-851 and
`BPlusTreeIndex::saveNode` lines 585-630). -/
def sysWrite (s : Sys) (k : FileKey) (g : PageData → PageData) : Sys :=
  let s1 := (fetchPage s k).2
  { s1 with pool := updA s1.pool k (fun p => { data := g p.data, is_dirty := true }) }

/-- Well-formedness of the substrate state: pool keys are unique, the LRU
list is a permutation of them (`pages_` and `lru_list_`/`lru_map_` mirror
each other), and every clean resident page agrees with its disk image. -/
structure SysWF (s : Sys) : Prop where
  nodup : (s.pool.map Prod.fst).Nodup
  perm : List.Perm (s.pool.map Prod.fst) s.lru
  clean : ∀ k p, lookupA s.pool k = some p → p.is_dirty = false → p.data = diskRead s k

theorem SysWF.lruNodup {s : Sys} (h : SysWF s) : s.lru.Nodup :=
  h.perm.nodup_iff.mp h.nodup

theorem SysWF.init : SysWF Sys.init := by
  refine ⟨by simp [Sys.init], by simp [Sys.init], ?_⟩
  intro k p hk
  simp [Sys.init, lookupA] at hk

/-! ### Association-list lemmas -/

theorem lookupA_isSome_iff {β : Type} (l : List (FileKey × β)) (k : FileKey) :
    (lookupA l k).isSome ↔ k ∈ l.map Prod.fst := by
  induction l with
  | nil => simp [lookupA]
  | cons kv rest ih =>
    obtain ⟨k0, v0⟩ := kv
    by_cases hk : k = k0 <;> simp [lookupA, hk, ih]

theorem lookupA_eq_none_iff {β : Type} (l : List (FileKey × β)) (k : FileKey) :
    lookupA l k = none ↔ k ∉ l.map Prod.fst := by
  rw [← lookupA_isSome_iff]
  cases lookupA l k <;> simp

theorem lookupA_eraseA_ne {β : Type} (l : List (FileKey × β)) (k k' : FileKey)
    (h : k' ≠ k) : lookupA (eraseA l k) k' = lookupA l k' := by
  induction l with
  | nil => simp [eraseA]
  | cons kv rest ih =>
    obtain ⟨k0, v0⟩ := kv
    by_cases hk : k = k0
    · subst hk
      simp [eraseA, lookupA, h]
    · by_cases hk' : k' = k0 <;> simp [eraseA, lookupA, hk, hk', ih]

theorem beqL_self (a : FileKey) : (@BEq.beq FileKey instBEqOfDecidableEq a a) = true := by
  show decide (a = a) = true
  simp

theorem beqL_of_ne {a b : FileKey} (h : b ≠ a) :
    (@BEq.beq FileKey instBEqOfDecidableEq b a) = false := by
  show decide (b = a) = false
  simp [h]

theorem eraseL_cons_head (a : FileKey) (l : List FileKey) : eraseL (a :: l) a = l := by
  show @List.erase FileKey instBEqOfDecidableEq (a :: l) a = l
  rw [@List.erase_cons FileKey instBEqOfDecidableEq]
  rw [if_pos (beqL_self a)]

theorem eraseL_cons_tail (a b : FileKey) (l : List FileKey) (h : b ≠ a) :
    eraseL (b :: l) a = b :: eraseL l a := by
  show @List.erase FileKey instBEqOfDecidableEq (b :: l) a = _
  rw [@List.erase_cons FileKey instBEqOfDecidableEq]
  rw [if_neg (by simp [beqL_of_ne h])]

theorem eraseL_nodup {l : List FileKey} (h : l.Nodup) (k : FileKey) :
    (eraseL l k).Nodup :=
  @List.Nodup.erase FileKey instBEqOfDecidableEq l instLawfulBEq k h

theorem not_mem_eraseL {l : List FileKey} {k : FileKey} (h : l.Nodup) :
    k ∉ eraseL l k :=
  @List.Nodup.not_mem_erase FileKey instBEqOfDecidableEq l instLawfulBEq k h

theorem mem_of_mem_eraseL {l : List FileKey} {k k2 : FileKey} (h : k2 ∈ eraseL l k) :
    k2 ∈ l := by
  induction l with
  | nil => simp [eraseL] at h
  | cons x xs ih =>
    by_cases hx : x = k
    · subst hx
      rw [eraseL_cons_head] at h
      exact List.mem_cons_of_mem _ h
    · rw [eraseL_cons_tail _ _ _ hx] at h
      rcases List.mem_cons.mp h with h | h
      · exact h ▸ List.mem_cons_self _ _
      · exact List.mem_cons_of_mem _ (ih h)

theorem eraseL_append_right {k : FileKey} {l1 : List FileKey} (l2 : List FileKey)
    (h : k ∉ l1) : eraseL (l1 ++ l2) k = l1 ++ eraseL l2 k :=
  @List.erase_append_right FileKey instBEqOfDecidableEq instLawfulBEq k l1 l2 h

theorem perm_eraseL {l1 l2 : List FileKey} (k : FileKey) (h : List.Perm l1 l2) :
    List.Perm (eraseL l1 k) (eraseL l2 k) :=
  h.erase k

theorem perm_cons_eraseL {k : FileKey} {l : List FileKey} (h : k ∈ l) :
    List.Perm l (k :: eraseL l k) :=
  List.perm_cons_erase h

theorem map_fst_eraseA {β : Type} (l : List (FileKey × β)) (k : FileKey) :
    (eraseA l k).map Prod.fst = eraseL (l.map Prod.fst) k := by
  induction l with
  | nil => simp [eraseA, eraseL]
  | cons kv rest ih =>
    obtain ⟨k0, v0⟩ := kv
    by_cases hk : k = k0
    · subst hk
      simp [eraseA, eraseL_cons_head]
    · rw [show ((k0, v0) :: rest).map Prod.fst = k0 :: rest.map Prod.fst from rfl,
        eraseL_cons_tail _ _ _ (Ne.symm hk)]
      simp only [eraseA, if_neg hk, List.map_cons, ih]

theorem length_eraseA {β : Type} (l : List (FileKey × β)) (k : FileKey)
    (h : k ∈ l.map Prod.fst) : (eraseA l k).length + 1 = l.length := by
  induction l with
  | nil => simp at h
  | cons kv rest ih =>
    obtain ⟨k0, v0⟩ := kv
    by_cases hk : k = k0
    · simp [eraseA, hk]
    · simp only [List.map_cons, List.mem_cons] at h
      rcases h with h | h
      · exact absurd h hk
      · simp [eraseA, hk, ih h]

theorem lookupA_updA_self {β : Type} (l : List (FileKey × β)) (k : FileKey)
    (f : β → β) : lookupA (updA l k f) k = (lookupA l k).map f := by
  induction l with
  | nil => simp [updA, lookupA]
  | cons kv rest ih =>
    obtain ⟨k0, v0⟩ := kv
    by_cases hk : k = k0
    · simp [updA, lookupA, hk]
    · simp [updA, lookupA, hk, ih]

theorem lookupA_updA_ne {β : Type} (l : List (FileKey × β)) (k k' : FileKey)
    (f : β → β) (h : k' ≠ k) : lookupA (updA l k f) k' = lookupA l k' := by
  induction l with
  | nil => simp [updA, lookupA]
  | cons kv rest ih =>
    obtain ⟨k0, v0⟩ := kv
    by_cases hk : k = k0
    · subst hk
      simp [updA, lookupA, h, ih]
    · by_cases hk' : k' = k0 <;> simp [updA, lookupA, hk, hk', ih]

theorem map_fst_updA {β : Type} (l : List (FileKey × β)) (k : FileKey) (f : β → β) :
    (updA l k f).map Prod.fst = l.map Prod.fst := by
  induction l with
  | nil => simp [updA]
  | cons kv rest ih =>
    obtain ⟨k0, v0⟩ := kv
    by_cases hk : k = k0
    · subst hk
      simp [updA, ih]
    · simp [updA, hk, ih]

theorem length_updA {β : Type} (l : List (FileKey × β)) (k : FileKey) (f : β → β) :
    (updA l k f).length = l.length := by
  induction l with
  | nil => rfl
  | cons kv rest ih =>
    obtain ⟨k0, v0⟩ := kv
    by_cases hk : k = k0
    · subst hk
      simp [updA, ih]
    · simp [updA, hk, ih]

theorem lookupA_mapVal {β : Type} (l : List (FileKey × β)) (k : FileKey) (f : β → β) :
    lookupA (l.map (fun kv => (kv.1, f kv.2))) k = (lookupA l k).map f := by
  induction l with
  | nil => simp [lookupA]
  | cons kv rest ih =>
    obtain ⟨k0, v0⟩ := kv
    by_cases hk : k = k0 <;> simp [lookupA, hk, ih]

theorem map_fst_mapVal {β : Type} (l : List (FileKey × β)) (f : β → β) :
    (l.map (fun kv => (kv.1, f kv.2))).map Prod.fst = l.map Prod.fst := by
  simp [List.map_map, Function.comp]

/-! ### Operation-level lemmas: each buffer-pool operation preserves the
well-formedness invariant and the observable content of every page. -/

theorem flushPage_lru (s : Sys) (k : FileKey) : (flushPage s k).lru = s.lru := by
  unfold flushPage
  cases lookupA s.pool k with
  | none => rfl
  | some p =>
    by_cases hd : p.is_dirty <;> simp [hd]

theorem flushPage_map_fst (s : Sys) (k : FileKey) :
    (flushPage s k).pool.map Prod.fst = s.pool.map Prod.fst := by
  unfold flushPage
  cases lookupA s.pool k with
  | none => rfl
  | some p =>
    by_cases hd : p.is_dirty <;> simp [hd, map_fst_updA]

theorem flushPage_observe (s : Sys) (k k' : FileKey) :
    observe (flushPage s k) k' = observe s k' := by
  unfold flushPage
  cases h : lookupA s.pool k with
  | none => rfl
  | some p =>
    by_cases hd : p.is_dirty
    · simp only [hd, if_true]
      unfold observe
      by_cases hk : k' = k
      · subst hk
        rw [lookupA_updA_self, h]
        rfl
      · rw [lookupA_updA_ne _ _ _ _ hk]
        cases hl : lookupA s.pool k' with
        | some q => rfl
        | none =>
          simp only [diskRead, lookupA, if_neg hk]
    · simp [hd]

theorem flushPage_diskRead_ne (s : Sys) (k k' : FileKey) (h : k' ≠ k) :
    diskRead (flushPage s k) k' = diskRead s k' := by
  unfold flushPage
  cases lookupA s.pool k with
  | none => rfl
  | some p =>
    by_cases hd : p.is_dirty
    · simp only [hd, if_true, diskRead, lookupA, if_neg h]
    · simp [hd]

theorem flushPage_WF (s : Sys) (k : FileKey) (h : SysWF s) : SysWF (flushPage s k) := by
  refine ⟨by rw [flushPage_map_fst]; exact h.nodup,
    by rw [flushPage_map_fst, flushPage_lru]; exact h.perm, ?_⟩
  intro k2 p2 hlook hcl
  revert hlook
  unfold flushPage
  cases hl : lookupA s.pool k with
  | none => exact fun hlook => h.clean k2 p2 hlook hcl
  | some p =>
    by_cases hd : p.is_dirty
    · simp only [hd, if_true]
      intro hlook
      by_cases hk : k2 = k
      · subst hk
        rw [lookupA_updA_self, hl] at hlook
        cases hlook
        simp [diskRead, lookupA]
      · rw [lookupA_updA_ne _ _ _ _ hk] at hlook
        have := h.clean k2 p2 hlook hcl
        rw [this]
        simp only [diskRead, lookupA, if_neg hk]
    · simp only [hd, if_false]
      exact fun hlook => h.clean k2 p2 hlook hcl

theorem evictPage_map_fst (s : Sys) :
    ∀ k', k' ∈ (evictPage s).pool.map Prod.fst → k' ∈ s.pool.map Prod.fst := by
  intro k' hk'
  unfold evictPage at hk'
  cases hL : s.lru.getLast? with
  | none => rw [hL] at hk'; exact hk'
  | some k =>
    rw [hL] at hk'
    simp only at hk'
    rw [map_fst_eraseA, flushPage_map_fst] at hk'
    exact mem_of_mem_eraseL hk'

theorem flushPage_length (s : Sys) (k : FileKey) :
    (flushPage s k).pool.length = s.pool.length := by
  unfold flushPage
  cases lookupA s.pool k with
  | none => rfl
  | some p =>
    by_cases hd : p.is_dirty <;> simp [hd, length_updA]

theorem flushPage_diskRead_self (s : Sys) (k : FileKey) (p : PoolPage)
    (h : SysWF s) (hp : lookupA s.pool k = some p) :
    diskRead (flushPage s k) k = p.data := by
  unfold flushPage
  rw [hp]
  by_cases hd : p.is_dirty
  · simp [hd, diskRead, lookupA]
  · simp only [hd, if_false]
    exact (h.clean k p hp (by simpa using hd)).symm

theorem lru_decomp (s : Sys) (k : FileKey) (hL : s.lru.getLast? = some k) :
    s.lru.dropLast ++ [k] = s.lru :=
  List.dropLast_append_getLast? k (by rw [hL]; rfl)

theorem lru_victim_mem (s : Sys) (h : SysWF s) (k : FileKey)
    (hL : s.lru.getLast? = some k) : k ∈ s.pool.map Prod.fst := by
  apply h.perm.mem_iff.mpr
  rw [← lru_decomp s k hL]
  simp

theorem evictPage_observe (s : Sys) (h : SysWF s) (k2 : FileKey) :
    observe (evictPage s) k2 = observe s k2 := by
  unfold evictPage
  cases hL : s.lru.getLast? with
  | none => rfl
  | some k =>
    have hpool := lru_victim_mem s h k hL
    obtain ⟨p, hp⟩ : ∃ p, lookupA s.pool k = some p := by
      have := (lookupA_isSome_iff s.pool k).mpr hpool
      cases hl : lookupA s.pool k
      · rw [hl] at this; simp at this
      · exact ⟨_, rfl⟩
    by_cases hk : k2 = k
    · subst hk
      have hnone : lookupA (eraseA (flushPage s k2).pool k2) k2 = none := by
        rw [lookupA_eq_none_iff, map_fst_eraseA, flushPage_map_fst]
        exact not_mem_eraseL h.nodup
      show observe ⟨_, _, _⟩ k2 = observe s k2
      unfold observe
      rw [hnone, hp]
      show diskRead (flushPage s k2) k2 = p.data
      exact flushPage_diskRead_self s k2 p h hp
    · show observe ⟨_, _, _⟩ k2 = observe s k2
      unfold observe
      rw [lookupA_eraseA_ne _ _ _ hk]
      have := flushPage_observe s k k2
      unfold observe at this
      exact this

theorem evictPage_WF (s : Sys) (h : SysWF s) : SysWF (evictPage s) := by
  unfold evictPage
  cases hL : s.lru.getLast? with
  | none => exact h
  | some k =>
    have hWF1 := flushPage_WF s k h
    have hdecomp := lru_decomp s k hL
    have hknodrop : k ∉ s.lru.dropLast := by
      have := h.lruNodup
      rw [← hdecomp] at this
      have := List.disjoint_of_nodup_append this
      intro hmem
      exact this hmem (by simp)
    have herase : eraseL s.lru k = s.lru.dropLast := by
      conv_lhs => rw [← hdecomp]
      rw [eraseL_append_right _ hknodrop, eraseL_cons_head]
      simp
    refine ⟨?_, ?_, ?_⟩
    · show ((eraseA (flushPage s k).pool k).map Prod.fst).Nodup
      rw [map_fst_eraseA, flushPage_map_fst]
      exact eraseL_nodup h.nodup k
    · show List.Perm ((eraseA (flushPage s k).pool k).map Prod.fst) (flushPage s k).lru.dropLast
      rw [map_fst_eraseA, flushPage_map_fst, flushPage_lru, ← herase]
      exact perm_eraseL k h.perm
    · intro k2 p2 hlook hcl
      by_cases hk : k2 = k
      · subst hk
        rw [show lookupA (eraseA (flushPage s k2).pool k2) k2 = none by
          rw [lookupA_eq_none_iff, map_fst_eraseA, flushPage_map_fst]
          exact not_mem_eraseL h.nodup] at hlook
        cases hlook
      · rw [lookupA_eraseA_ne _ _ _ hk] at hlook
        exact hWF1.clean k2 p2 hlook hcl

theorem evictPage_length (s : Sys) (h : SysWF s) (hne : s.pool.length ≠ 0) :
    (evictPage s).pool.length + 1 = s.pool.length := by
  unfold evictPage
  cases hL : s.lru.getLast? with
  | none =>
    exfalso
    have hlen : s.lru.length = s.pool.length := by
      have := h.perm.length_eq
      simpa using this.symm
    have : s.lru ≠ [] := by
      intro hc
      rw [hc] at hlen
      simp at hlen
      omega
    rw [List.getLast?_eq_getLast_of_ne_nil this] at hL
    cases hL
  | some k =>
    have hpool := lru_victim_mem s h k hL
    show (eraseA (flushPage s k).pool k).length + 1 = s.pool.length
    rw [length_eraseA _ _ (by rw [flushPage_map_fst]; exact hpool), flushPage_length]

theorem evictPage_diskRead_not_resident (s : Sys) (h : SysWF s) (k2 : FileKey)
    (hk2 : k2 ∉ s.pool.map Prod.fst) :
    diskRead (evictPage s) k2 = diskRead s k2 := by
  unfold evictPage
  cases hL : s.lru.getLast? with
  | none => rfl
  | some k =>
    have hpool := lru_victim_mem s h k hL
    have hk : k2 ≠ k := by rintro rfl; exact hk2 hpool
    show diskRead ⟨_, _, (flushPage s k).disk⟩ k2 = diskRead s k2
    have := flushPage_diskRead_ne s k k2 hk
    unfold diskRead at this ⊢
    exact this

theorem fetchPage_data (s : Sys) (k : FileKey) :
    ((fetchPage s k).1).data = observe s k := by
  unfold fetchPage observe
  cases lookupA s.pool k with
  | some p => rfl
  | none => rfl

theorem fetchPage_lookup_self (s : Sys) (k : FileKey) :
    ∃ b, lookupA (fetchPage s k).2.pool k = some ⟨observe s k, b⟩ := by
  unfold fetchPage observe
  cases h : lookupA s.pool k with
  | some p =>
    refine ⟨p.is_dirty, ?_⟩
    show lookupA (updateLRU s k).pool k = _
    unfold updateLRU
    by_cases hm : k ∈ s.lru <;> simp only [hm, if_true, if_false, ite_true, ite_false] <;>
      rw [h]
  | none =>
    exact ⟨false, by simp [lookupA]⟩

theorem fetchPage_observe (s : Sys) (k : FileKey) (h : SysWF s) (k2 : FileKey) :
    observe (fetchPage s k).2 k2 = observe s k2 := by
  unfold fetchPage
  cases hl : lookupA s.pool k with
  | some p =>
    show observe (updateLRU s k) k2 = observe s k2
    unfold updateLRU
    by_cases hm : k ∈ s.lru
    · simp only [hm, if_true, ite_true]
      unfold observe
      cases lookupA s.pool k2 <;> rfl
    · simp [hm]
  | none =>
    set s1 := if s.pool.length ≥ BUFFER_POOL_SIZE then evictPage s else s with hs1
    have hobs1 : ∀ k3, observe s1 k3 = observe s k3 := by
      intro k3
      rw [hs1]
      split
      · exact evictPage_observe s h k3
      · rfl
    show observe ⟨(k, ⟨diskRead s k, false⟩) :: s1.pool, k :: s1.lru, s1.disk⟩ k2
      = observe s k2
    by_cases hk : k2 = k
    · subst hk
      unfold observe
      rw [show lookupA ((k2, (⟨diskRead s k2, false⟩ : PoolPage)) :: s1.pool) k2
        = some ⟨diskRead s k2, false⟩ from by simp [lookupA], hl]
    · unfold observe
      rw [show lookupA ((k, (⟨diskRead s k, false⟩ : PoolPage)) :: s1.pool) k2
        = lookupA s1.pool k2 from by simp [lookupA, hk]]
      have := hobs1 k2
      unfold observe at this
      exact this

theorem fetchPage_WF (s : Sys) (k : FileKey) (h : SysWF s) : SysWF (fetchPage s k).2 := by
  unfold fetchPage
  cases hl : lookupA s.pool k with
  | some p =>
    show SysWF (updateLRU s k)
    unfold updateLRU
    by_cases hm : k ∈ s.lru
    · simp only [hm, if_true, ite_true]
      refine ⟨h.nodup, ?_, h.clean⟩
      exact h.perm.trans (perm_cons_eraseL hm)
    · simp [hm, h]
  | none =>
    have hknotmem : k ∉ s.pool.map Prod.fst := (lookupA_eq_none_iff _ _).mp hl
    set s1 := if s.pool.length ≥ BUFFER_POOL_SIZE then evictPage s else s with hs1
    have hWF1 : SysWF s1 := by
      rw [hs1]; split
      · exact evictPage_WF s h
      · exact h
    have hknotmem1 : k ∉ s1.pool.map Prod.fst := by
      rw [hs1]; split
      · intro hc; exact hknotmem (evictPage_map_fst s k hc)
      · exact hknotmem
    have hknotlru1 : k ∉ s1.lru := fun hc => hknotmem1 (hWF1.perm.mem_iff.mpr hc)
    refine ⟨?_, ?_, ?_⟩
    · show ((k, _) :: s1.pool).map Prod.fst |>.Nodup
      simp only [List.map_cons, List.nodup_cons]
      exact ⟨hknotmem1, hWF1.nodup⟩
    · show List.Perm (((k, _) :: s1.pool).map Prod.fst) (k :: s1.lru)
      simp only [List.map_cons]
      exact hWF1.perm.cons k
    · intro k2 p2 hlook hcl
      show p2.data = diskRead ⟨_, _, s1.disk⟩ k2
      by_cases hk : k2 = k
      · subst hk
        rw [show lookupA ((k2, ({ data := diskRead s k2, is_dirty := false } : PoolPage))
          :: s1.pool) k2 = some ⟨diskRead s k2, false⟩ by simp [lookupA]] at hlook
        cases hlook
        show diskRead s k2 = diskRead ⟨_, _, s1.disk⟩ k2
        have : diskRead s1 k2 = diskRead s k2 := by
          rw [hs1]; split
          · exact evictPage_diskRead_not_resident s h k2 hknotmem
          · rfl
        rw [← this]
        rfl
      · rw [show lookupA ((k, ({ data := diskRead s k, is_dirty := false } : PoolPage))
          :: s1.pool) k2 = lookupA s1.pool k2 by simp [lookupA, hk]] at hlook
        exact hWF1.clean k2 p2 hlook hcl

theorem fetchPage_length (s : Sys) (k : FileKey) (h : SysWF s)
    (hlen : s.pool.length ≤ BUFFER_POOL_SIZE) :
    (fetchPage s k).2.pool.length ≤ BUFFER_POOL_SIZE := by
  unfold fetchPage
  cases hl : lookupA s.pool k with
  | some p =>
    show (updateLRU s k).pool.length ≤ BUFFER_POOL_SIZE
    unfold updateLRU
    by_cases hm : k ∈ s.lru <;> simp [hm, hlen]
  | none =>
    show ((k, _) :: (if s.pool.length ≥ BUFFER_POOL_SIZE then evictPage s
      else s).pool).length ≤ BUFFER_POOL_SIZE
    by_cases hsz : s.pool.length ≥ BUFFER_POOL_SIZE
    · simp only [hsz, if_true, ite_true, List.length_cons]
      have hne : s.pool.length ≠ 0 := by
        unfold BUFFER_POOL_SIZE at hsz
        omega
      have := evictPage_length s h hne
      omega
    · simp only [hsz, if_false, ite_false, List.length_cons]
      omega

theorem sysWrite_observe_self (s : Sys) (k : FileKey) (g : PageData → PageData) :
    observe (sysWrite s k g) k = g (observe s k) := by
  unfold sysWrite observe
  obtain ⟨b, hb⟩ := fetchPage_lookup_self s k
  rw [lookupA_updA_self, hb]
  rfl

theorem sysWrite_observe_ne (s : Sys) (k : FileKey) (g : PageData → PageData)
    (h : SysWF s) (k2 : FileKey) (hk : k2 ≠ k) :
    observe (sysWrite s k g) k2 = observe s k2 := by
  unfold sysWrite
  have := fetchPage_observe s k h k2
  unfold observe at this ⊢
  rw [lookupA_updA_ne _ _ _ _ hk]
  exact this

theorem sysWrite_WF (s : Sys) (k : FileKey) (g : PageData → PageData)
    (h : SysWF s) : SysWF (sysWrite s k g) := by
  have hWF1 := fetchPage_WF s k h
  unfold sysWrite
  refine ⟨?_, ?_, ?_⟩
  · show ((updA (fetchPage s k).2.pool k _).map Prod.fst).Nodup
    rw [map_fst_updA]
    exact hWF1.nodup
  · show List.Perm ((updA (fetchPage s k).2.pool k _).map Prod.fst) (fetchPage s k).2.lru
    rw [map_fst_updA]
    exact hWF1.perm
  · intro k2 p2 hlook hcl
    by_cases hk : k2 = k
    · subst hk
      rw [lookupA_updA_self] at hlook
      obtain ⟨b, hb⟩ := fetchPage_lookup_self s k2
      rw [hb] at hlook
      cases hlook
      simp at hcl
    · rw [lookupA_updA_ne _ _ _ _ hk] at hlook
      exact hWF1.clean k2 p2 hlook hcl

theorem sysWrite_length (s : Sys) (k : FileKey) (g : PageData → PageData)
    (h : SysWF s) (hlen : s.pool.length ≤ BUFFER_POOL_SIZE) :
    (sysWrite s k g).pool.length ≤ BUFFER_POOL_SIZE := by
  unfold sysWrite
  show (updA (fetchPage s k).2.pool k _).length ≤ BUFFER_POOL_SIZE
  rw [length_updA]
  exact fetchPage_length s k h hlen

theorem flushList_lookup_not_mem (pool : List (FileKey × PoolPage))
    (disk : List (FileKey × PageData)) (k : FileKey)
    (h : k ∉ pool.map Prod.fst) :
    lookupA (flushList pool disk) k = lookupA disk k := by
  induction pool generalizing disk with
  | nil => rfl
  | cons kp rest ih =>
    obtain ⟨k0, p0⟩ := kp
    simp only [List.map_cons, List.mem_cons, not_or] at h
    show lookupA (flushList rest _) k = _
    rw [ih _ h.2]
    by_cases hd : p0.is_dirty <;> simp [hd, lookupA, h.1]

theorem flushList_lookup_mem (pool : List (FileKey × PoolPage))
    (disk : List (FileKey × PageData)) (k : FileKey) (p : PoolPage)
    (hnd : (pool.map Prod.fst).Nodup) (h : lookupA pool k = some p) :
    lookupA (flushList pool disk) k
      = if p.is_dirty then some p.data else lookupA disk k := by
  induction pool generalizing disk with
  | nil => cases h
  | cons kp rest ih =>
    obtain ⟨k0, p0⟩ := kp
    simp only [List.map_cons, List.nodup_cons] at hnd
    by_cases hk : k = k0
    · subst hk
      rw [show lookupA ((k, p0) :: rest) k = some p0 by simp [lookupA]] at h
      cases h
      show lookupA (flushList rest _) k = _
      rw [flushList_lookup_not_mem _ _ _ hnd.1]
      by_cases hd : p.is_dirty <;> simp [hd, lookupA]
    · rw [show lookupA ((k0, p0) :: rest) k = lookupA rest k by simp [lookupA, hk]] at h
      show lookupA (flushList rest _) k = _
      rw [ih _ hnd.2 h]
      by_cases hd : p0.is_dirty <;> simp [hd, lookupA, hk]

theorem flushAllPages_observe (s : Sys) (k : FileKey) :
    observe (flushAllPages s) k = observe s k := by
  unfold flushAllPages observe
  rw [lookupA_mapVal]
  cases hl : lookupA s.pool k with
  | some p => rfl
  | none =>
    show diskRead ⟨_, _, flushList s.pool s.disk⟩ k = diskRead s k
    unfold diskRead
    rw [flushList_lookup_not_mem _ _ _ ((lookupA_eq_none_iff _ _).mp hl)]

theorem flushAllPages_WF (s : Sys) (h : SysWF s) : SysWF (flushAllPages s) := by
  refine ⟨?_, ?_, ?_⟩
  · show ((s.pool.map _).map Prod.fst).Nodup
    rw [map_fst_mapVal]
    exact h.nodup
  · show List.Perm ((s.pool.map _).map Prod.fst) s.lru
    rw [map_fst_mapVal]
    exact h.perm
  · intro k p hlook _
    show p.data = diskRead ⟨_, _, flushList s.pool s.disk⟩ k
    rw [show (flushAllPages s).pool = s.pool.map
      (fun kp => (kp.1, clearDirty kp.2)) from rfl] at hlook
    rw [lookupA_mapVal] at hlook
    cases hq : lookupA s.pool k with
    | none => rw [hq] at hlook; cases hlook
    | some q =>
      rw [hq] at hlook
      cases hlook
      show q.data = diskRead ⟨_, _, flushList s.pool s.disk⟩ k
      unfold diskRead
      rw [flushList_lookup_mem s.pool s.disk k q h.nodup hq]
      by_cases hd : q.is_dirty
      · simp [hd]
      · simp only [hd, if_false, ite_false]
        exact h.clean k q hq (by simpa using hd)

theorem flushAllPages_all_clean (s : Sys) :
    ∀ kp ∈ (flushAllPages s).pool, kp.2.is_dirty = false := by
  intro kp hkp
  unfold flushAllPages at hkp
  simp only [List.mem_map] at hkp
  obtain ⟨kq, _, rfl⟩ := hkp
  rfl

theorem flushAllPages_length (s : Sys) :
    (flushAllPages s).pool.length = s.pool.length := by
  unfold flushAllPages
  simp

theorem flushPage_length_le (s : Sys) (k : FileKey)
    (hlen : s.pool.length ≤ BUFFER_POOL_SIZE) :
    (flushPage s k).pool.length ≤ BUFFER_POOL_SIZE := by
  rw [flushPage_length]
  exact hlen

/-! ## B+ tree index (`BPlusTreeNode`, `BPlusTreeIndex`)

Tree nodes occupy pages of the index's own file (`<column>.idx`), obtained
from the shared buffer pool and (de)serialized by `saveNode`/`getNode`
(lines 467-637).  The embedding keeps the store of node pages as an
association list from page id to the decoded node; this is exactly the
information content of those pages, because `saveNode` zeroes the page and
writes the full wire image, so for every node the engine actually stores,
deserialization inverts serialization.  A page id absent from the store is
an all-zero page, which `getNode` deserializes as a fresh
default-constructed node (lines 474-483).  Since `<column>.idx` and
`<column>.data` are distinct files, index-page traffic never aliases any
column data page.  `createNewNode`'s page-id counter is per-index here; the
C++ uses one process-wide `static` counter (line 458), which only shifts
which fresh page ids an index receives, never how two ids of one index
store compare.

`saveNode` refuses to serialize an inconsistent node and leaves the page
untouched (lines 567-583) — including the freshly created *empty internal*
node of `createNewNode(false)`, whose `children.size() (0) ≠ keys.size()+1
(1)`.  The consequences of that refusal are modelled exactly. -/

/-- First-match lookup in a page-id-keyed association list. -/
def lookupN {β : Type} : List (Nat × β) → Nat → Option β
  | [], _ => none
  | (k, v) :: rest, k' => if k' = k then some v else lookupN rest k'

/-- `std::vector::resize(n, fill)`: truncate or pad. -/
def resizeTo {α : Type} (l : List α) (n : Nat) (fill : α) : List α :=
  l.take n ++ List.replicate (n - l.length) fill

/-- `struct BPlusTreeNode` (lines 284-292). -/
structure BPlusTreeNode where
  is_leaf : Bool
  keys : List Value
  children : List Nat
  records : List Nat
  next_leaf : Nat
deriving DecidableEq

/-- `BPlusTreeNode(bool leaf = true)`: the default-constructed node. -/
def defaultNode : BPlusTreeNode :=
  { is_leaf := true, keys := [], children := [], records := [], next_leaf := 0 }

/-- `class BPlusTreeIndex` state: tracked root page id (0 = empty tree),
declared key type, the node pages of the index file, and the fresh-page-id
counter (starting at 1; 0 is reserved). -/
structure BPlusTreeIndex where
  index_name : String
  root_page_id : Nat
  key_type : DataType
  nodes : List (Nat × BPlusTreeNode)
  next_page_id : Nat

/-- The `BPlusTreeIndex` constructor (lines 304-307). -/
def mkIndex (name : String) (kt : DataType) : BPlusTreeIndex :=
  { index_name := name, root_page_id := 0, key_type := kt, nodes := [], next_page_id := 1 }

/-- The consistency precondition `saveNode` checks before serializing
(lines 569-583): leaves need `keys.len = records.len`, internal nodes need
`children.len = keys.len + 1`. -/
def nodeConsistent (n : BPlusTreeNode) : Bool :=
  if n.is_leaf then n.keys.length == n.records.length
  else n.children.length == n.keys.length + 1

/-- `BPlusTreeIndex::saveNode`: refuse to serialize an inconsistent node
(leaving its page untouched); otherwise write the node's wire image into
its page.  The wire form of a leaf has no children; the wire form of an
internal node has no records and no next-leaf field. -/
def saveNode (t : BPlusTreeIndex) (pid : Nat) (node : BPlusTreeNode) : BPlusTreeIndex :=
  if nodeConsistent node then
    let stored := if node.is_leaf then { node with children := [] }
      else { node with records := [], next_leaf := 0 }
    { t with nodes := (pid, stored) :: t.nodes }
  else t

/-- `BPlusTreeIndex::getNode`: an all-zero (never-written) page is a fresh
default node; an over-long key count yields a node with only `is_leaf` set;
otherwise the stored node, clamped by the consistency repairs of lines
532-561 (no reachable store ever needs them). -/
def getNode (t : BPlusTreeIndex) (pid : Nat) : BPlusTreeNode :=
  match lookupN t.nodes pid with
  | none => defaultNode
  | some n =>
    if n.keys.length > BTREE_ORDER - 1 then
      { is_leaf := n.is_leaf, keys := [], children := [], records := [], next_leaf := 0 }
    else if n.is_leaf then
      let m := min n.keys.length n.records.length
      { is_leaf := true, keys := n.keys.take m, children := [],
        records := n.records.take m, next_leaf := n.next_leaf }
    else
      { is_leaf := false, keys := n.keys,
        children := resizeTo n.children (n.keys.length + 1) 0,
        records := [], next_leaf := 0 }

/-- `BPlusTreeIndex::createNewNode` (lines 457-465): allocate a fresh page
id and save a default node of the requested kind there. -/
def createNewNode (t : BPlusTreeIndex) (leaf : Bool) : Nat × BPlusTreeIndex :=
  let pid := t.next_page_id
  let t1 := { t with next_page_id := pid + 1 }
  (pid, saveNode t1 pid { defaultNode with is_leaf := leaf })

/-- `std::lower_bound` over the keys with `compareValues _ _ < 0`: index of
the first key not less than `key`. -/
def lowerBound : List Value → Value → Nat
  | [], _ => 0
  | k :: ks, key => if compareValues k key < 0 then lowerBound ks key + 1 else 0

/-- `BPlusTreeIndex::findChildIndex` (lines 791-808), including its
out-of-range repair for internal nodes. -/
def findChildIndex (node : BPlusTreeNode) (key : Value) : Nat :=
  let index := lowerBound node.keys key
  if !node.is_leaf && decide (index ≥ node.children.length) then
    if node.children.length > 0 then node.children.length - 1 else 0
  else index

/-- The repeated bounds clamp of `insertInternal`/`findLeaf`
(lines 658-662, 690-694). -/
def clampChildIndex (node : BPlusTreeNode) (ci : Nat) : Nat :=
  if ci ≥ node.children.length then
    if node.children.length > 0 then node.children.length - 1 else 0
  else ci

/-- `BPlusTreeIndex::insertIntoLeaf` (lines 700-722): `std::lower_bound`
position, then insert key and record id there.  Note `lower_bound` places a
duplicate key *before* its existing copies. -/
def insertIntoLeaf (node : BPlusTreeNode) (key : Value) (rid : Nat) : BPlusTreeNode :=
  let pos := lowerBound node.keys key
  let records := if node.records.length ≠ node.keys.length
    then resizeTo node.records node.keys.length 0 else node.records
  { node with
    keys := node.keys.insertIdx pos key,
    records := records.insertIdx pos rid }

/-- `BPlusTreeIndex::insertIntoInternal` (lines 724-746). -/
def insertIntoInternal (node : BPlusTreeNode) (key : Value) (newChild : Nat)
    (childIndex : Nat) : BPlusTreeNode :=
  let ci := if childIndex > node.keys.length then node.keys.length else childIndex
  let children := if node.children.length ≠ node.keys.length + 1
    then resizeTo node.children (node.keys.length + 1) 0 else node.children
  { node with
    keys := node.keys.insertIdx ci key,
    children := children.insertIdx (ci + 1) newChild }

/-- `BPlusTreeIndex::splitLeaf` (lines 748-768): right node receives the
upper half and the old next-leaf; the promoted key is the right node's
first key. -/
def splitLeaf (t : BPlusTreeIndex) (pid : Nat) (node : BPlusTreeNode) :
    (Value × Nat) × BPlusTreeIndex :=
  let mid := node.keys.length / 2
  let alloc := createNewNode t true
  let newPid := alloc.1
  let t1 := alloc.2
  let newNode0 := getNode t1 newPid
  let newNode := { newNode0 with
    keys := node.keys.drop mid,
    records := node.records.drop mid,
    next_leaf := node.next_leaf }
  let left := { node with
    keys := node.keys.take mid,
    records := node.records.take mid,
    next_leaf := newPid }
  let t2 := saveNode t1 pid left
  let t3 := saveNode t2 newPid newNode
  ((newNode.keys.headD (Value.i32 0), newPid), t3)

/-- `BPlusTreeIndex::splitInternal` (lines 770-789): the promoted key is
`keys[mid]`, moved up.  The freshly allocated right node's page was never
written (`createNewNode(false)`'s save is refused), so `getNode` of it is a
default node — with `is_leaf = true`. -/
def splitInternal (t : BPlusTreeIndex) (pid : Nat) (node : BPlusTreeNode) :
    (Value × Nat) × BPlusTreeIndex :=
  let mid := node.keys.length / 2
  let alloc := createNewNode t false
  let newPid := alloc.1
  let t1 := alloc.2
  let newNode0 := getNode t1 newPid
  let promoted := node.keys.getD mid (Value.i32 0)
  let newNode := { newNode0 with
    keys := node.keys.drop (mid + 1),
    children := node.children.drop (mid + 1) }
  let left := { node with
    keys := node.keys.take mid,
    children := node.children.take (mid + 1) }
  let t2 := saveNode t1 pid left
  let t3 := saveNode t2 newPid newNode
  ((promoted, newPid), t3)

/-- `BPlusTreeIndex::insertInternal` (lines 639-679).  The C++ recursion
descends through stored page ids; the explicit fuel dominates the depth of
any acyclic store (callers pass `nodes.length + 1`). -/
def insertInternal (t : BPlusTreeIndex) :
    Nat → Nat → Value → Nat → (Value × Nat) × BPlusTreeIndex
  | 0, _, _, _ => ((Value.i32 0, 0), t)
  | fuel + 1, pid, key, rid =>
    let node := getNode t pid
    if node.is_leaf then
      let node := insertIntoLeaf node key rid
      if node.keys.length > BTREE_ORDER - 1 then splitLeaf t pid node
      else ((Value.i32 0, 0), saveNode t pid node)
    else
      let ci := clampChildIndex node (findChildIndex node key)
      let step := insertInternal t fuel (node.children.getD ci 0) key rid
      let res := step.1
      let t1 := step.2
      if res.2 ≠ 0 then
        let node := insertIntoInternal node res.1 res.2 ci
        if node.keys.length > BTREE_ORDER - 1 then splitInternal t1 pid node
        else ((Value.i32 0, 0), saveNode t1 pid node)
      else ((Value.i32 0, 0), saveNode t1 pid node)

/-- `BPlusTreeIndex::insert` (lines 309-326): create a root leaf for an
empty tree, insert, and on a root split push the promoted key and the two
halves into a freshly allocated root and retarget the root page id. -/
def BPlusTreeIndex.insert (t : BPlusTreeIndex) (key : Value) (rid : Nat) :
    BPlusTreeIndex :=
  let t :=
    if t.root_page_id = 0 then
      let alloc := createNewNode t true
      { alloc.2 with root_page_id := alloc.1 }
    else t
  let step := insertInternal t (t.nodes.length + 1) t.root_page_id key rid
  let res := step.1
  let t1 := step.2
  if res.2 ≠ 0 then
    let alloc := createNewNode t1 false
    let newRoot := alloc.1
    let t2 := alloc.2
    let node0 := getNode t2 newRoot
    let node := { node0 with
      keys := node0.keys ++ [res.1],
      children := node0.children ++ [t1.root_page_id, res.2] }
    let t3 := { t2 with root_page_id := newRoot }
    saveNode t3 newRoot node
  else t1

/-- `BPlusTreeIndex::findLeaf` (lines 681-698): descend to the leaf
covering `key`. -/
def findLeaf (t : BPlusTreeIndex) : Nat → Nat → Value → Nat
  | 0, pid, _ => pid
  | fuel + 1, pid, key =>
    let node := getNode t pid
    if node.is_leaf then pid
    else
      let ci := clampChildIndex node (findChildIndex node key)
      findLeaf t fuel (node.children.getD ci 0) key

/-- `BPlusTreeIndex::search` (lines 328-342): descend to one leaf and scan
it linearly for equal keys.  A leaf loaded from its page always has
`keys.len = records.len`, so pairing the two lists positionally is the
loop's `keys[i]`/`records[i]`. -/
def BPlusTreeIndex.search (t : BPlusTreeIndex) (key : Value) : List Nat :=
  if t.root_page_id = 0 then []
  else
    let leaf := findLeaf t (t.nodes.length + 1) t.root_page_id key
    let node := getNode t leaf
    (node.keys.zip node.records).filterMap
      (fun kr => if valueEqB kr.1 key then some kr.2 else none)

/-- One leaf's pass of the `rangeSearch` loop (lines 353-361): emit every
in-range record id; stop the whole walk at the first key above `hi`. -/
def rangeScanLeaf (lo hi : Value) : List (Value × Nat) → List Nat × Bool
  | [] => ([], false)
  | (k, r) :: rest =>
    if compareValues k hi > 0 then ([], true)
    else
      let emit := if compareValues k lo ≥ 0 && compareValues k hi ≤ 0 then [r] else []
      let step := rangeScanLeaf lo hi rest
      (emit ++ step.1, step.2)

/-- The `while (leaf_page != 0)` chain walk of `rangeSearch`
(lines 350-364). -/
def rangeWalk (t : BPlusTreeIndex) (lo hi : Value) : Nat → Nat → List Nat
  | 0, _ => []
  | fuel + 1, leafPage =>
    if leafPage = 0 then []
    else
      let node := getNode t leafPage
      let scan := rangeScanLeaf lo hi (node.keys.zip node.records)
      if scan.2 then scan.1
      else scan.1 ++ rangeWalk t lo hi fuel node.next_leaf

/-- `BPlusTreeIndex::rangeSearch` (lines 344-367): descend to the leaf
covering `lo`, then walk the leaf chain. -/
def BPlusTreeIndex.rangeSearch (t : BPlusTreeIndex) (lo hi : Value) : List Nat :=
  if t.root_page_id = 0 then []
  else
    let leaf := findLeaf t (t.nodes.length + 1) t.root_page_id lo
    rangeWalk t lo hi (t.nodes.length + 1) leaf

/-! ## Column store (`DiskBasedColumn`) -/

/-- `class DiskBasedColumn` state (lines 818-842): declared type, the data
file it owns, its B+ tree index, the authoritative record count, and the
records-per-page packing factor. -/
structure DiskBasedColumn where
  name : String
  type : DataType
  data_file : String
  index : BPlusTreeIndex
  total_records : Nat
  records_per_page : Nat

/-- The `DiskBasedColumn` constructor (lines 829-842): data file
`<name>.data`, index over `<name>.idx`, `⌊PAGE_SIZE / record_size⌋`
records per page. -/
def mkColumn (name : String) (t : DataType) : DiskBasedColumn :=
  { name := name, type := t, data_file := name ++ ".data",
    index := mkIndex (name ++ ".idx") t,
    total_records := 0,
    records_per_page := PAGE_SIZE / getRecordSize t }

/-- `DiskBasedColumn::writeValueToPage` (lines 930-967): the value's
fixed-width image at byte offset `slot * record_size`. -/
def writeValueToPage (t : DataType) (p : PageData) (slot : Nat) (v : Value) : PageData :=
  writeBytes p (slot * getRecordSize t) (encodeValue t v)

/-- `DiskBasedColumn::readValueFromPage` (lines 969-1007): decode the
fixed-width image at byte offset `slot * record_size`. -/
def readValueFromPage (t : DataType) (p : PageData) (slot : Nat) : Value :=
  decodeValue t (readBytes p (slot * getRecordSize t) (getRecordSize t))

/-- `DiskBasedColumn::append` (lines 844-870): the record id is the
pre-append count; fetch page `rid / rpp`, write the value at slot
`rid % rpp`, mark the page dirty, insert `(value, rid)` into the index,
flush the page on the debug path's schedule, and increment the count. -/
def columnAppend (c : DiskBasedColumn) (s : Sys) (v : Value) :
    Nat × DiskBasedColumn × Sys :=
  let rid := c.total_records
  let pid := rid / c.records_per_page
  let slot := rid % c.records_per_page
  let s1 := sysWrite s (c.data_file, pid) (fun d => writeValueToPage c.type d slot v)
  let c1 := { c with index := c.index.insert v rid }
  let s2 := if (rid < 5 || rid % 10000 = 0) && rid % 1000 = 0
    then flushPage s1 (c.data_file, pid) else s1
  (rid, { c1 with total_records := rid + 1 }, s2)

/-- `DiskBasedColumn::get` (lines 872-878): fetch page `rid / rpp` and
decode slot `rid % rpp`.  No bounds check is performed. -/
def columnGet (c : DiskBasedColumn) (s : Sys) (rid : Nat) : Value × Sys :=
  let pid := rid / c.records_per_page
  let slot := rid % c.records_per_page
  let fp := fetchPage s (c.data_file, pid)
  (readValueFromPage c.type fp.1.data slot, fp.2)

/-- `DiskBasedColumn::findRecords` (lines 880-882): delegate to the
index's point search. -/
def findRecords (c : DiskBasedColumn) (v : Value) : List Nat :=
  c.index.search v

/-- `DiskBasedColumn::findRecordsInRange` (lines 884-886): delegate to the
index's range search. -/
def findRecordsInRange (c : DiskBasedColumn) (lo hi : Value) : List Nat :=
  c.index.rangeSearch lo hi

/-- The rational value of a finite IEEE-754 single-precision bit pattern
(`static_cast<double>` of the float in `getNumericValue`); patterns with an
all-ones exponent (infinities, NaNs) have no rational value and are mapped
to 0 — the engine never manufactures them. -/
def f32ToRat (x : Nat) : ℚ :=
  let sign : Nat := x / 2 ^ 31 % 2
  let e : Nat := x / 2 ^ 23 % 2 ^ 8
  let m : Nat := x % 2 ^ 23
  let mag : ℚ :=
    if e = 255 then 0
    else if e = 0 then (m : ℚ) * (2 : ℚ) ^ (-(149 : Int))
    else ((2 ^ 23 + m : Nat) : ℚ) * (2 : ℚ) ^ ((e : Int) - 150)
  if sign = 1 then -mag else mag

/-- The rational value of a finite IEEE-754 double-precision bit pattern. -/
def f64ToRat (x : Nat) : ℚ :=
  let sign : Nat := x / 2 ^ 63 % 2
  let e : Nat := x / 2 ^ 52 % 2 ^ 11
  let m : Nat := x % 2 ^ 52
  let mag : ℚ :=
    if e = 2047 then 0
    else if e = 0 then (m : ℚ) * (2 : ℚ) ^ (-(1074 : Int))
    else ((2 ^ 52 + m : Nat) : ℚ) * (2 : ℚ) ^ ((e : Int) - 1075)
  if sign = 1 then -mag else mag

/-- `DiskBasedColumn::getNumericValue` (lines 1009-1017): the numeric
value of a record, dispatching on the declared column type; strings and
bools contribute 0.  Exact rationals stand in for C++ `double` arithmetic;
the claims proved below relate the aggregate results to one another and do
not depend on this interpretation. -/
def getNumericValue (t : DataType) (v : Value) : ℚ :=
  match t with
  | .INT32 => (getI32 v : ℚ)
  | .INT64 => (getI64 v : ℚ)
  | .FLOAT => f32ToRat (getF32 v)
  | .DOUBLE => f64ToRat (getF64 v)
  | _ => 0

/-- `DiskBasedColumn::sum` (lines 889-906): page-at-a-time scan; for each
page with `page_id * rpp < total_records`, fetch it and add the numeric
value of each of its slots up to the record count. -/
def sumC (c : DiskBasedColumn) (s : Sys) : ℚ × Sys :=
  let rpp := c.records_per_page
  let numPages := (c.total_records + rpp - 1) / rpp
  (List.range numPages).foldl
    (fun acc pid =>
      let fp := fetchPage acc.2 (c.data_file, pid)
      let start := pid * rpp
      let stop := min (start + rpp) c.total_records
      let pageSum := (List.range (stop - start)).foldl
        (fun q i => q + getNumericValue c.type (readValueFromPage c.type fp.1.data i)) 0
      (acc.1 + pageSum, fp.2))
    (0, s)

/-- `DiskBasedColumn::average` (lines 908-911): 0 when the column is
empty, else `sum() / total_records`. -/
def averageC (c : DiskBasedColumn) (s : Sys) : ℚ × Sys :=
  if c.total_records = 0 then (0, s)
  else
    let r := sumC c s
    (r.1 / (c.total_records : ℚ), r.2)

/-- A sequence of appends, front to back. -/
def appendAll (c : DiskBasedColumn) (s : Sys) : List Value → DiskBasedColumn × Sys
  | [] => (c, s)
  | v :: vs =>
    let r := columnAppend c s v
    appendAll r.2.1 r.2.2 vs

/-! ### The column storage invariant

After any append sequence, slot `sl` of page `pid` of the column's data
file — as the next fetch would observe it, wherever the page currently
resides — holds the byte image of appended value number `pid * rpp + sl`,
or all zeros if no append has written that slot yet. -/

/-- Records per page is positive for every declared type. -/
theorem rpp_pos (t : DataType) : 0 < PAGE_SIZE / getRecordSize t := by
  cases t <;> decide

/-- The storage invariant tying a column and the substrate to the list of
values appended so far. -/
structure ColInv (t : DataType) (file : String) (vs : List Value)
    (c : DiskBasedColumn) (s : Sys) : Prop where
  count : c.total_records = vs.length
  ctype : c.type = t
  cfile : c.data_file = file
  crpp : c.records_per_page = PAGE_SIZE / getRecordSize t
  wf : SysWF s
  cap : s.pool.length ≤ BUFFER_POOL_SIZE
  slots : ∀ pid sl, sl < PAGE_SIZE / getRecordSize t →
    readBytes (observe s (file, pid)) (sl * getRecordSize t) (getRecordSize t)
      = if h : pid * (PAGE_SIZE / getRecordSize t) + sl < vs.length
        then encodeValue t (vs.get ⟨pid * (PAGE_SIZE / getRecordSize t) + sl, h⟩)
        else List.replicate (getRecordSize t) 0

theorem ColInv_init (t : DataType) (name : String) :
    ColInv t (name ++ ".data") [] (mkColumn name t) Sys.init := by
  refine ⟨rfl, rfl, rfl, rfl, SysWF.init, by simp [Sys.init, BUFFER_POOL_SIZE], ?_⟩
  intro pid sl _
  have hobs : observe Sys.init (name ++ ".data", pid) = zeroPage := by
    unfold observe Sys.init diskRead lookupA
    rfl
  rw [hobs, readBytes_zeroPage, dif_neg]
  simp

theorem getRecordSize_pos (t : DataType) : 0 < getRecordSize t := by
  cases t <;> decide

theorem readValueToPage_same (t : DataType) (p : PageData) (slot : Nat) (v : Value) :
    readBytes (writeValueToPage t p slot v) (slot * getRecordSize t) (getRecordSize t)
      = encodeValue t v := by
  unfold writeValueToPage
  have h := readBytes_writeBytes_same p (slot * getRecordSize t) (encodeValue t v)
  rwa [encodeValue_length] at h

theorem readValueToPage_ne (t : DataType) (p : PageData) (slot sl : Nat) (v : Value)
    (h : sl ≠ slot) :
    readBytes (writeValueToPage t p slot v) (sl * getRecordSize t) (getRecordSize t)
      = readBytes p (sl * getRecordSize t) (getRecordSize t) := by
  unfold writeValueToPage
  apply readBytes_writeBytes_disjoint
  rw [encodeValue_length]
  have hsz := getRecordSize_pos t
  rcases Nat.lt_or_ge sl slot with hcase | hcase
  · left
    calc sl * getRecordSize t + getRecordSize t
        = (sl + 1) * getRecordSize t := by ring
      _ ≤ slot * getRecordSize t := Nat.mul_le_mul_right _ hcase
  · right
    have hgt : slot < sl := by omega
    calc slot * getRecordSize t + getRecordSize t
        = (slot + 1) * getRecordSize t := by ring
      _ ≤ sl * getRecordSize t := Nat.mul_le_mul_right _ hgt

theorem ColInv_append (t : DataType) (file : String) (vs : List Value)
    (c : DiskBasedColumn) (s : Sys) (v : Value)
    (h : ColInv t file vs c s) :
    ColInv t file (vs ++ [v]) (columnAppend c s v).2.1 (columnAppend c s v).2.2 := by
  obtain ⟨cn, ct, cf, ci, ctr, cr⟩ := c
  obtain ⟨hcount, hctype, hcfile, hcrpp, hwf, hcap, hslots⟩ := h
  simp only at hcount hctype hcfile hcrpp
  subst hcount hctype hcfile hcrpp
  have hrpp := rpp_pos ct
  have hidx : vs.length / (PAGE_SIZE / getRecordSize ct) * (PAGE_SIZE / getRecordSize ct)
      + vs.length % (PAGE_SIZE / getRecordSize ct) = vs.length := by
    rw [Nat.mul_comm]
    exact Nat.div_add_mod vs.length (PAGE_SIZE / getRecordSize ct)
  set rpp := PAGE_SIZE / getRecordSize ct with hrppdef
  set n := vs.length with hn
  have hnlen : (vs ++ [v]).length = n + 1 := by simp [hn]
  set key : FileKey := (cf, n / rpp) with hkeydef
  set g : PageData → PageData := fun d => writeValueToPage ct d (n % rpp) v with hg
  set s1 := sysWrite s key g with hs1
  set s2 : Sys := if (n < 5 || n % 10000 = 0) && n % 1000 = 0
    then flushPage s1 key else s1 with hs2
  have happ1 : (columnAppend ⟨cn, ct, cf, ci, n, rpp⟩ s v).2.1
      = ⟨cn, ct, cf, ci.insert v n, n + 1, rpp⟩ := rfl
  have happ2 : (columnAppend ⟨cn, ct, cf, ci, n, rpp⟩ s v).2.2 = s2 := rfl
  have hwf1 : SysWF s1 := sysWrite_WF s _ g hwf
  have hcap1 : s1.pool.length ≤ BUFFER_POOL_SIZE := sysWrite_length s _ g hwf hcap
  have hwf2 : SysWF s2 := by
    rw [hs2]; split
    · exact flushPage_WF s1 _ hwf1
    · exact hwf1
  have hcap2 : s2.pool.length ≤ BUFFER_POOL_SIZE := by
    rw [hs2]; split
    · exact flushPage_length_le s1 _ hcap1
    · exact hcap1
  have hobs2 : ∀ k, observe s2 k = observe s1 k := by
    intro k
    rw [hs2]; split
    · exact flushPage_observe s1 _ k
    · rfl
  rw [happ1, happ2]
  refine ⟨by simp [hn], rfl, rfl, rfl, hwf2, hcap2, ?_⟩
  intro pid sl hsl
  rw [hobs2]
  by_cases hpid : pid = n / rpp
  · subst hpid
    have hwrite : observe s1 (cf, n / rpp) = g (observe s (cf, n / rpp)) := by
      rw [hs1, hkeydef]
      exact sysWrite_observe_self s _ g
    by_cases hslq : sl = n % rpp
    · subst hslq
      rw [hwrite, hg]
      rw [readValueToPage_same]
      rw [show n / rpp * rpp + n % rpp = n from hidx]
      rw [dif_pos (by simp [hn])]
      have hgetv : (vs ++ [v]).get ⟨n, by simp [hn]⟩ = v := by
        rw [List.get_eq_getElem]
        simp only [hn]
        exact List.getElem_concat_length vs v vs.length rfl (by simp)
      rw [hgetv]
    · rw [hwrite, hg, readValueToPage_ne ct _ _ _ _ hslq,
        hslots (n / rpp) sl hsl]
      have hne : n / rpp * rpp + sl ≠ n := by
        intro hcon
        apply hslq
        have h1 : (n / rpp * rpp + sl) % rpp = n % rpp := by rw [hcon]
        rw [Nat.mul_comm, Nat.mul_add_mod] at h1
        rw [← h1, Nat.mod_eq_of_lt hsl]
      by_cases hlt : n / rpp * rpp + sl < n
      · have hcond : n / rpp * rpp + sl < n + 1 := by omega
        have hcond2 : n / rpp * rpp + sl < vs.length := by omega
        rw [dif_pos hlt, dif_pos (by rw [hnlen]; exact hcond)]
        congr 1
        rw [List.get_eq_getElem, List.get_eq_getElem]
        exact (List.getElem_append_left hcond2).symm
      · have hcond : ¬ (n / rpp * rpp + sl < n + 1) := by omega
        rw [dif_neg hlt, dif_neg (by rw [hnlen]; exact hcond)]
  · have hkeyne : (cf, pid) ≠ key := by
      rw [hkeydef]
      intro hcon
      exact hpid (congrArg Prod.snd hcon)
    have hobs1 : observe s1 (cf, pid) = observe s (cf, pid) := by
      rw [hs1]
      exact sysWrite_observe_ne s _ g hwf _ hkeyne
    rw [hobs1, hslots pid sl hsl]
    have hne : pid * rpp + sl ≠ n := by
      intro hcon
      apply hpid
      rw [← hcon, Nat.mul_comm, Nat.mul_add_div hrpp, Nat.div_eq_of_lt hsl]
      omega
    by_cases hlt : pid * rpp + sl < n
    · have hcond : pid * rpp + sl < n + 1 := by omega
      have hcond2 : pid * rpp + sl < vs.length := by omega
      rw [dif_pos hlt, dif_pos (by rw [hnlen]; exact hcond)]
      congr 1
      rw [List.get_eq_getElem, List.get_eq_getElem]
      exact (List.getElem_append_left hcond2).symm
    · have hcond : ¬ (pid * rpp + sl < n + 1) := by omega
      rw [dif_neg hlt, dif_neg (by rw [hnlen]; exact hcond)]

theorem ColInv_appendAll (t : DataType) (file : String) :
    ∀ (vs pre : List Value) (c : DiskBasedColumn) (s : Sys),
      ColInv t file pre c s →
      ColInv t file (pre ++ vs) (appendAll c s vs).1 (appendAll c s vs).2
  | [], pre, c, s, h => by simpa [appendAll] using h
  | v :: vs, pre, c, s, h => by
    have hstep := ColInv_append t file pre c s v h
    have hrec := ColInv_appendAll t file vs (pre ++ [v])
      (columnAppend c s v).2.1 (columnAppend c s v).2.2 hstep
    rw [List.append_assoc] at hrec
    simpa [appendAll] using hrec

/-- The column round-trip: after any sequence of appends from a fresh
column, `get` at a record id below the count returns the stored
normalization of the value that the corresponding append was given. -/
theorem columnGet_appendAll_lt (t : DataType) (name : String) (vs : List Value)
    (r : Nat) (hr : r < vs.length)
    (hv : valueWF t (vs.get ⟨r, hr⟩) = true) :
    (columnGet (appendAll (mkColumn name t) Sys.init vs).1
      (appendAll (mkColumn name t) Sys.init vs).2 r).1
      = normalizeValue t (vs.get ⟨r, hr⟩) := by
  have hinv := ColInv_appendAll t (name ++ ".data") vs [] _ _ (ColInv_init t name)
  rw [List.nil_append] at hinv
  obtain ⟨hcount, hctype, hcfile, hcrpp, hwf2, hcap, hslots⟩ := hinv
  have hrpp := rpp_pos t
  unfold columnGet
  show readValueFromPage _ _ _ = _
  rw [hctype, hcfile, hcrpp, fetchPage_data]
  unfold readValueFromPage
  have hidx : r / (PAGE_SIZE / getRecordSize t) * (PAGE_SIZE / getRecordSize t)
      + r % (PAGE_SIZE / getRecordSize t) = r := by
    rw [Nat.mul_comm]
    exact Nat.div_add_mod r (PAGE_SIZE / getRecordSize t)
  rw [hslots (r / (PAGE_SIZE / getRecordSize t)) (r % (PAGE_SIZE / getRecordSize t))
    (Nat.mod_lt r hrpp), hidx, dif_pos hr]
  exact decodeValue_encodeValue t _ hv

/-- `get` past the record count decodes an all-zero byte image: the zero
value of the declared type. -/
theorem columnGet_appendAll_ge (t : DataType) (name : String) (vs : List Value)
    (r : Nat) (hr : vs.length ≤ r) :
    (columnGet (appendAll (mkColumn name t) Sys.init vs).1
      (appendAll (mkColumn name t) Sys.init vs).2 r).1
      = zeroValueOf t := by
  have hinv := ColInv_appendAll t (name ++ ".data") vs [] _ _ (ColInv_init t name)
  rw [List.nil_append] at hinv
  obtain ⟨hcount, hctype, hcfile, hcrpp, hwf2, hcap, hslots⟩ := hinv
  have hrpp := rpp_pos t
  unfold columnGet
  show readValueFromPage _ _ _ = _
  rw [hctype, hcfile, hcrpp, fetchPage_data]
  unfold readValueFromPage
  have hidx : r / (PAGE_SIZE / getRecordSize t) * (PAGE_SIZE / getRecordSize t)
      + r % (PAGE_SIZE / getRecordSize t) = r := by
    rw [Nat.mul_comm]
    exact Nat.div_add_mod r (PAGE_SIZE / getRecordSize t)
  rw [hslots (r / (PAGE_SIZE / getRecordSize t)) (r % (PAGE_SIZE / getRecordSize t))
    (Nat.mod_lt r hrpp), hidx, dif_neg (by omega)]
  exact decodeValue_zero t

/-! ## Table (`DiskBasedTable`) -/

/-- First-match lookup in a name-keyed association list
(`unordered_map<string, …>::find`). -/
def lookupS {β : Type} : List (String × β) → String → Option β
  | [], _ => none
  | (k, v) :: rest, k' => if k' = k then some v else lookupS rest k'

/-- `class DiskBasedTable` state (lines 1021-1035).  The C++ keeps a
name-to-column map plus the declared-order vector `column_order_`; since
`addColumn` rejects duplicate names, one association list in declared
order carries both. -/
structure DiskBasedTable where
  name : String
  table_path : String
  cols : List (String × DiskBasedColumn)
  row_count : Nat

/-- The `DiskBasedTable` constructor: `table_path_ = name`, no columns,
zero rows. -/
def mkTable (name : String) : DiskBasedTable :=
  { name := name, table_path := name, cols := [], row_count := 0 }

/-- The per-type default value used by `addColumn` back-fill and
`insertRow` (lines 1048-1055, 1071-1079): zero for numerics, the empty
string, `false`. -/
def defaultValueFor : DataType → Value
  | .INT32 => .i32 0
  | .INT64 => .i64 0
  | .FLOAT => .f32 0
  | .DOUBLE => .f64 0
  | .STRING => .str []
  | .BOOL => .bool false

/-- `DiskBasedTable::addColumn` (lines 1037-1061): throw on a duplicate
name; otherwise create the column at `<table>/<name>`, append `row_count`
defaults to it, and register it at the end of the declared order. -/
def addColumn (tb : DiskBasedTable) (s : Sys) (name : String) (t : DataType) :
    Except String (DiskBasedTable × Sys) :=
  if (lookupS tb.cols name).isSome then
    .error ("Column already exists: " ++ name)
  else
    let col0 := mkColumn (tb.table_path ++ "/" ++ name) t
    let filled := appendAll col0 s (List.replicate tb.row_count (defaultValueFor t))
    .ok ({ tb with cols := tb.cols ++ [(name, filled.1)] }, filled.2)

/-- The loop body of `DiskBasedTable::insertRow` (lines 1063-1084): for
each column in declared order, append the row's value for it, or the
column's type default when the row has none. -/
def insertRowAux (row : List (String × Value)) :
    List (String × DiskBasedColumn) → Sys → List (String × DiskBasedColumn) × Sys
  | [], s => ([], s)
  | (nm, col) :: rest, s =>
    let v := match lookupS row nm with
      | some v => v
      | none => defaultValueFor col.type
    let r := columnAppend col s v
    let step := insertRowAux row rest r.2.2
    ((nm, r.2.1) :: step.1, step.2)

/-- `DiskBasedTable::insertRow`: fan the row out to every column in
declared order, then increment `row_count`. -/
def insertRow (tb : DiskBasedTable) (s : Sys) (row : List (String × Value)) :
    DiskBasedTable × Sys :=
  let step := insertRowAux row tb.cols s
  ({ tb with cols := step.1, row_count := tb.row_count + 1 }, step.2)

/-- `DiskBasedTable::bulkInsert` (lines 1087-1096): insert each row;
after every 1000th row flush the buffer pool. -/
def bulkInsert (tb : DiskBasedTable) (s : Sys) :
    List (List (String × Value)) → DiskBasedTable × Sys
  | [] => (tb, s)
  | row :: rest =>
    let r := insertRow tb s row
    let s2 := if r.1.row_count % 1000 = 0 then flushAllPages r.2 else r.2
    bulkInsert r.1 s2 rest

/-- `DiskBasedTable::getColumn` (lines 1098-1101): name lookup, null on a
miss. -/
def getColumn (tb : DiskBasedTable) (name : String) : Option DiskBasedColumn :=
  lookupS tb.cols name

/-- Materialize one result row (the inner loop of `indexedSelect` /
`rangeSelect`): read each projected column at the record id; silently skip
projected names that are not columns. -/
def buildRow (tb : DiskBasedTable) (colsSel : List String) (rid : Nat) (s : Sys) :
    List (String × Value) × Sys :=
  match colsSel with
  | [] => ([], s)
  | nm :: rest =>
    match lookupS tb.cols nm with
    | some c =>
      let g := columnGet c s rid
      let step := buildRow tb rest rid g.2
      ((nm, g.1) :: step.1, step.2)
    | none => buildRow tb rest rid s

/-- Materialize the result rows for a list of record ids. -/
def buildRows (tb : DiskBasedTable) (colsSel : List String) :
    List Nat → Sys → List (List (String × Value)) × Sys
  | [], s => ([], s)
  | rid :: rest, s =>
    let r := buildRow tb colsSel rid s
    let step := buildRows tb colsSel rest r.2
    (r.1 :: step.1, step.2)

/-- `DiskBasedTable::indexedSelect` (lines 1104-1133): resolve the index
column — returning an *empty result* when the name is not a column — then
look up the record ids via the index and materialize the rows.  Projection
defaults to all columns in declared order. -/
def indexedSelect (tb : DiskBasedTable) (s : Sys) (index_column : String)
    (v : Value) (selected : List String) :
    List (List (String × Value)) × Sys :=
  match lookupS tb.cols index_column with
  | none => ([], s)
  | some col =>
    let rids := findRecords col v
    let colsSel := if selected.isEmpty then tb.cols.map Prod.fst else selected
    buildRows tb colsSel rids s

/-- `DiskBasedTable::rangeSelect` (lines 1136-1164): as `indexedSelect`,
over the index's range search. -/
def rangeSelect (tb : DiskBasedTable) (s : Sys) (index_column : String)
    (lo hi : Value) (selected : List String) :
    List (List (String × Value)) × Sys :=
  match lookupS tb.cols index_column with
  | none => ([], s)
  | some col =>
    let rids := findRecordsInRange col lo hi
    let colsSel := if selected.isEmpty then tb.cols.map Prod.fst else selected
    buildRows tb colsSel rids s

/-! ### Table operation sequences (for the equal-length invariant) -/

/-- The table-level operations of the claim: add a column, insert a row,
bulk-insert rows. -/
inductive TableOp where
  | addCol (name : String) (t : DataType)
  | insRow (row : List (String × Value))
  | bulk (rows : List (List (String × Value)))

/-- Run a sequence of table operations from a state; a failed `addColumn`
(duplicate name) throws before mutating anything, leaving the state
unchanged. -/
def runTable : DiskBasedTable × Sys → List TableOp → DiskBasedTable × Sys
  | st, [] => st
  | st, op :: ops =>
    let st' := match op with
      | .addCol name t =>
        match addColumn st.1 st.2 name t with
        | .ok r => r
        | .error _ => st
      | .insRow row => insertRow st.1 st.2 row
      | .bulk rows => bulkInsert st.1 st.2 rows
    runTable st' ops

/-- The equal-length invariant: every column holds exactly `row_count`
records. -/
def TableInv (tb : DiskBasedTable) : Prop :=
  ∀ kc ∈ tb.cols, kc.2.total_records = tb.row_count

theorem columnAppend_count (c : DiskBasedColumn) (s : Sys) (v : Value) :
    (columnAppend c s v).2.1.total_records = c.total_records + 1 := rfl

theorem appendAll_count : ∀ (vs : List Value) (c : DiskBasedColumn) (s : Sys),
    (appendAll c s vs).1.total_records = c.total_records + vs.length
  | [], c, s => by simp [appendAll]
  | v :: vs, c, s => by
    show (appendAll (columnAppend c s v).2.1 (columnAppend c s v).2.2 vs).1.total_records = _
    rw [appendAll_count vs, columnAppend_count]
    simp
    omega

theorem insertRowAux_counts (row : List (String × Value)) (n : Nat) :
    ∀ (cols : List (String × DiskBasedColumn)) (s : Sys),
      (∀ kc ∈ cols, kc.2.total_records = n) →
      ∀ kc ∈ (insertRowAux row cols s).1, kc.2.total_records = n + 1
  | [], s, _, kc, hkc => by simp [insertRowAux] at hkc
  | (nm, col) :: rest, s, h, kc, hkc => by
    simp only [insertRowAux, List.mem_cons] at hkc
    rcases hkc with hkc | hkc
    · subst hkc
      show (columnAppend col s _).2.1.total_records = n + 1
      rw [columnAppend_count, h (nm, col) (by simp)]
    · exact insertRowAux_counts row n rest _
        (fun kc2 hkc2 => h kc2 (List.mem_cons_of_mem _ hkc2)) kc hkc

theorem insertRow_inv (tb : DiskBasedTable) (s : Sys) (row : List (String × Value))
    (h : TableInv tb) : TableInv (insertRow tb s row).1 := by
  intro kc hkc
  show kc.2.total_records = tb.row_count + 1
  exact insertRowAux_counts row tb.row_count tb.cols s h kc hkc

theorem addColumn_inv (tb : DiskBasedTable) (s : Sys) (name : String) (t : DataType)
    (tb2 : DiskBasedTable) (s2 : Sys)
    (h : TableInv tb) (hok : addColumn tb s name t = .ok (tb2, s2)) :
    TableInv tb2 := by
  unfold addColumn at hok
  by_cases hdup : (lookupS tb.cols name).isSome
  · rw [if_pos hdup] at hok
    cases hok
  · rw [if_neg hdup] at hok
    cases hok
    intro kc hkc
    simp only [List.mem_append, List.mem_singleton] at hkc
    rcases hkc with hkc | hkc
    · exact h kc hkc
    · subst hkc
      show (appendAll _ _ _).1.total_records = _
      rw [appendAll_count]
      simp [mkColumn]

theorem bulkInsert_inv (tb : DiskBasedTable) (s : Sys)
    (rows : List (List (String × Value))) (h : TableInv tb) :
    TableInv (bulkInsert tb s rows).1 := by
  induction rows generalizing tb s with
  | nil => exact h
  | cons row rest ih =>
    show TableInv (bulkInsert (insertRow tb s row).1 _ rest).1
    exact ih _ _ (insertRow_inv tb s row h)

theorem runTable_inv (st : DiskBasedTable × Sys) (ops : List TableOp)
    (h : TableInv st.1) : TableInv (runTable st ops).1 := by
  induction ops generalizing st with
  | nil => exact h
  | cons op ops ih =>
    cases op with
    | addCol name t =>
      show TableInv (runTable (match addColumn st.1 st.2 name t with
        | .ok r => r | .error _ => st) ops).1
      cases hres : addColumn st.1 st.2 name t with
      | ok r => exact ih _ (addColumn_inv st.1 st.2 name t r.1 r.2 h (by rw [hres]))
      | error e => exact ih _ h
    | insRow row => exact ih _ (insertRow_inv st.1 st.2 row h)
    | bulk rows => exact ih _ (bulkInsert_inv st.1 st.2 rows h)

/-! ### Frame property of `insertRow` over unknown row keys -/

/-- The row map restricted to the table's declared column names. -/
def rowRestrict (tb : DiskBasedTable) (row : List (String × Value)) :
    List (String × Value) :=
  row.filter (fun kv => decide (kv.1 ∈ tb.cols.map Prod.fst))

theorem lookupS_filter (p : String → Bool) (nm : String) (hp : p nm = true) :
    ∀ row : List (String × Value),
      lookupS (row.filter (fun kv => p kv.1)) nm = lookupS row nm
  | [] => rfl
  | (k, v) :: rest => by
    by_cases hk : nm = k
    · subst hk
      simp [List.filter_cons, hp, lookupS]
    · by_cases hpk : p k
      · simp [List.filter_cons, hpk, lookupS, hk, lookupS_filter p nm hp rest]
      · simp [List.filter_cons, hpk, lookupS, hk, lookupS_filter p nm hp rest]

theorem insertRowAux_filter (p : String → Bool) (row : List (String × Value)) :
    ∀ (cols : List (String × DiskBasedColumn)) (s : Sys),
      (∀ nm ∈ cols.map Prod.fst, p nm = true) →
      insertRowAux (row.filter (fun kv => p kv.1)) cols s = insertRowAux row cols s
  | [], s, _ => rfl
  | (nm, col) :: rest, s, h => by
    have hnm : p nm = true := h nm (by simp)
    have hrec := fun (s2 : Sys) => insertRowAux_filter p row rest s2
      (fun nm2 hnm2 => h nm2 (by simp [hnm2]))
    simp only [insertRowAux]
    rw [lookupS_filter p nm hnm row, hrec]

theorem insertRow_restrict (tb : DiskBasedTable) (s : Sys)
    (row : List (String × Value)) :
    insertRow tb s (rowRestrict tb row) = insertRow tb s row := by
  simp only [insertRow, rowRestrict]
  rw [insertRowAux_filter (fun x => decide (x ∈ tb.cols.map Prod.fst)) row tb.cols s
    (fun nm hnm => by simpa using hnm)]

/-! ### Buffer-pool operation sequences (for the residency claim) -/

/-- The buffer-pool operations a client can perform: fetch a page, flush a
page, flush everything, or mutate a fetched page's bytes (which is what
marks pages dirty). -/
inductive PoolOp where
  | fetch (k : FileKey)
  | flushOne (k : FileKey)
  | flushAll
  | write (k : FileKey) (g : PageData → PageData)

/-- Run a sequence of buffer-pool operations. -/
def runPool : Sys → List PoolOp → Sys
  | s, [] => s
  | s, op :: ops =>
    let s2 := match op with
      | .fetch k => (fetchPage s k).2
      | .flushOne k => flushPage s k
      | .flushAll => flushAllPages s
      | .write k g => sysWrite s k g
    runPool s2 ops

theorem runPool_append (s : Sys) (l1 l2 : List PoolOp) :
    runPool s (l1 ++ l2) = runPool (runPool s l1) l2 := by
  induction l1 generalizing s with
  | nil => rfl
  | cons op ops ih =>
    show runPool _ (ops ++ l2) = _
    rw [ih]
    rfl

theorem runPool_wf_cap (ops : List PoolOp) (s : Sys) (hwf : SysWF s)
    (hcap : s.pool.length ≤ BUFFER_POOL_SIZE) :
    SysWF (runPool s ops) ∧ (runPool s ops).pool.length ≤ BUFFER_POOL_SIZE := by
  induction ops generalizing s with
  | nil => exact ⟨hwf, hcap⟩
  | cons op ops ih =>
    cases op with
    | fetch k => exact ih _ (fetchPage_WF s k hwf) (fetchPage_length s k hwf hcap)
    | flushOne k => exact ih _ (flushPage_WF s k hwf) (flushPage_length_le s k hcap)
    | flushAll =>
      refine ih _ (flushAllPages_WF s hwf) ?_
      rw [flushAllPages_length]
      exact hcap
    | write k g => exact ih _ (sysWrite_WF s k g hwf) (sysWrite_length s k g hwf hcap)

/-! ## Claim scenarios -/

/-- An `INT32` column after appending the value 5 twice (record ids 0
and 1). -/
def dupColumn : DiskBasedColumn × Sys :=
  appendAll (mkColumn "t/c" DataType.INT32) Sys.init [Value.i32 5, Value.i32 5]

/-- An `INT32` column after appending the value 7 twice (record ids 0
and 1). -/
def dupColumn7 : DiskBasedColumn × Sys :=
  appendAll (mkColumn "t/c" DataType.INT32) Sys.init [Value.i32 7, Value.i32 7]

/-- A `STRING` column after appending one 256-byte string (256 copies of
byte 65, `'A'`). -/
def longStringColumn : DiskBasedColumn × Sys :=
  appendAll (mkColumn "t/s" DataType.STRING) Sys.init
    [Value.str (List.replicate 256 65)]

/-- A B+ tree index over `INT32` after inserting the 128 distinct keys
0..127 with record ids 0..127 — exactly enough to overflow one leaf and
split the root. -/
def rootSplitTree : BPlusTreeIndex :=
  (List.range 128).foldl
    (fun t i => t.insert (Value.i32 (Int.ofNat i)) i)
    (mkIndex "t/c.idx" DataType.INT32)

/-- A table `t` with a single `INT32` column `a` holding one row
`a = 1`. -/
def oneColumnTable : DiskBasedTable × Sys :=
  runTable (mkTable "t", Sys.init)
    [TableOp.addCol "a" DataType.INT32, TableOp.insRow [("a", Value.i32 1)]]

/-! ## Claim theorems -/

/-- C1 (code bug): after appending the value 5 twice to a fresh `INT32`
column, `find_records(5)` returns `[1, 0]` — the record ids in
*descending* order, because `insertIntoLeaf`'s `std::lower_bound` places a
duplicate key before its existing copies.  The spec requires the multiset
of record ids in ascending order (`[0, 1]`), and §4.3 states duplicates
are "retained in insertion order". -/
theorem C1_find_records_duplicate_order_bug :
    findRecords dupColumn.1 (Value.i32 5) = [1, 0] ∧ ([1, 0] : List Nat) ≠ [0, 1] := by
  constructor
  · decide
  · decide

set_option maxRecDepth 100000 in
/-- C2 counterexample: appending a 256-byte string and reading it back
yields the first 255 bytes only — `writeValueToPage` resizes the string to
255 bytes before storing it — so `get` does not return exactly the value
passed to `append` for every string. -/
theorem C2_counterexample_string_truncation :
    (columnGet longStringColumn.1 longStringColumn.2 0).1
        = Value.str (List.replicate 255 65)
      ∧ (columnGet longStringColumn.1 longStringColumn.2 0).1
        ≠ Value.str (List.replicate 256 65) := by
  constructor
  · decide
  · decide

/-- C2 (amended): for every column and record id `r < size`, `get(r)`
returns the *stored normalization* of the value passed to the `append`
that produced `r`: exact for the five scalar types, and for strings the
value truncated to 255 bytes and cut at the first NUL — the write
normalization of `writeValueToPage`/`readValueFromPage`. -/
theorem C2_get_returns_appended_value (t : DataType) (name : String)
    (vs : List Value) (r : Nat) (hr : r < vs.length)
    (hv : valueWF t (vs.get ⟨r, hr⟩) = true) :
    (columnGet (appendAll (mkColumn name t) Sys.init vs).1
      (appendAll (mkColumn name t) Sys.init vs).2 r).1
      = normalizeValue t (vs.get ⟨r, hr⟩) :=
  columnGet_appendAll_lt t name vs r hr hv

/-- Witness for C2: a concrete `INT32` column with one appended value. -/
theorem C2_witness :
    valueWF DataType.INT32 (Value.i32 7) = true
      ∧ (columnGet (appendAll (mkColumn "t/c" DataType.INT32) Sys.init [Value.i32 7]).1
          (appendAll (mkColumn "t/c" DataType.INT32) Sys.init [Value.i32 7]).2 0).1
        = normalizeValue DataType.INT32 (Value.i32 7) := by
  refine ⟨by decide, ?_⟩
  have h := C2_get_returns_appended_value DataType.INT32 "t/c" [Value.i32 7] 0
    (by decide) (by decide)
  simpa using h

/-- C3 (code bug): after appending the value 7 twice to a fresh `INT32`
column, `find_records_in_range(7, 7)` returns `[1, 0]` — descending
record ids within the equal key, violating the claimed ascending
record-id order within equal keys (same `lower_bound` insertion-order
reversal as C1). -/
theorem C3_range_search_duplicate_order_bug :
    findRecordsInRange dupColumn7.1 (Value.i32 7) (Value.i32 7) = [1, 0]
      ∧ ([1, 0] : List Nat) ≠ [0, 1] := by
  constructor
  · decide
  · decide

set_option maxRecDepth 1000000 in
set_option maxHeartbeats 4000000 in
/-- C4 (code bug): inserting the 128 distinct keys 0..127 overflows the
root leaf and triggers a root split.  The new root is never written:
`createNewNode(false)` saves nothing (an empty internal node fails
`saveNode`'s consistency check), `getNode` of the still-all-zero page
yields a default *leaf*, and the assembled root (a "leaf" with one key,
two children and no records) is refused again.  The tracked root page id
then points at an empty page, so the root is an empty default leaf — not
an internal node with the promoted key — and a subsequent search for the
previously inserted key 64 returns nothing. -/
theorem C4_root_split_loses_tree :
    rootSplitTree.search (Value.i32 64) = []
      ∧ getNode rootSplitTree rootSplitTree.root_page_id = defaultNode := by
  constructor
  · decide
  · decide

/-- C5: over any sequence of buffer-pool operations (fetches, flushes,
full flushes, and page writes) from the initial empty pool, residency
never exceeds `BUFFER_POOL_SIZE = 1000`; and immediately after a
`flush_all_pages`, no resident page is dirty. -/
theorem C5_buffer_pool_invariants (ops : List PoolOp) :
    (runPool Sys.init ops).pool.length ≤ BUFFER_POOL_SIZE
      ∧ ∀ kp ∈ (runPool Sys.init (ops ++ [PoolOp.flushAll])).pool,
          kp.2.is_dirty = false := by
  constructor
  · exact (runPool_wf_cap ops Sys.init SysWF.init
      (by simp [Sys.init, BUFFER_POOL_SIZE])).2
  · rw [runPool_append]
    intro kp hkp
    exact flushAllPages_all_clean (runPool Sys.init ops) kp hkp

/-- C6: after any sequence of `add_column`, `insert_row` and
`bulk_insert` operations on a fresh table, every column's record count
equals the table's `row_count` (`add_column` back-fills defaults on a
non-empty table; a failed duplicate `add_column` throws before mutating
anything). -/
theorem C6_equal_column_lengths (name : String) (ops : List TableOp) :
    TableInv (runTable (mkTable name, Sys.init) ops).1 := by
  apply runTable_inv
  intro kc hkc
  simp [mkTable] at hkc

/-- C7: `average()` equals `sum()` divided by the record count when the
count is positive, and 0 when the column is empty — exactly the guard and
division `DiskBasedColumn::average` performs on `sum()`'s result. -/
theorem C7_average_is_sum_div_count (c : DiskBasedColumn) (s : Sys) :
    (averageC c s).1
      = if c.total_records = 0 then 0
        else (sumC c s).1 / (c.total_records : ℚ) := by
  unfold averageC
  by_cases h : c.total_records = 0
  · rw [if_pos h, if_pos h]
  · rw [if_neg h, if_neg h]

/-- C8 counterexample: on a table with single column `a`, a select on the
nonexistent column `b` returns a plain empty row list — the very same
observable result as a legitimate select on `a` that matches nothing.  No
error is raised and nothing distinguishes the schema miss from an empty
match, so the lookup miss is not surfaced to the caller as a failure
(contrast `addColumn`, which returns an error on a duplicate name). -/
theorem C8_counterexample_lookup_miss_silent :
    (indexedSelect oneColumnTable.1 oneColumnTable.2 "b" (Value.i32 1) []).1 = []
      ∧ (indexedSelect oneColumnTable.1 oneColumnTable.2 "a" (Value.i32 2) []).1 = [] := by
  constructor
  · decide
  · decide

/-- C8 (amended): when `indexed_select` or `range_select` is called with
an `index_column` that is not a column of the table, the call returns an
empty result list and leaves the state untouched; the miss is silently
absorbed, not surfaced as a failure. -/
theorem C8_missing_index_column_returns_empty (tb : DiskBasedTable) (s : Sys)
    (name : String) (v lo hi : Value) (sel : List String)
    (h : lookupS tb.cols name = none) :
    indexedSelect tb s name v sel = ([], s)
      ∧ rangeSelect tb s name lo hi sel = ([], s) := by
  constructor
  · unfold indexedSelect
    rw [h]
  · unfold rangeSelect
    rw [h]

/-- Witness for C8: the empty table has no column `b`. -/
theorem C8_witness :
    lookupS (mkTable "t").cols "b" = none
      ∧ indexedSelect (mkTable "t") Sys.init "b" (Value.i32 1) [] = ([], Sys.init)
      ∧ rangeSelect (mkTable "t") Sys.init "b" (Value.i32 1) (Value.i32 2) []
        = ([], Sys.init) := by
  have h : lookupS (mkTable "t").cols "b" = none := rfl
  have hmain := C8_missing_index_column_returns_empty (mkTable "t") Sys.init "b"
    (Value.i32 1) (Value.i32 1) (Value.i32 2) [] h
  exact ⟨h, hmain.1, hmain.2⟩

/-- C9: `get` is total in the model and, for any record id at or beyond
the record count — a slot no append has written — returns the zero value
of the column's declared type (0, 0.0, the empty string, `false`),
because pages absent from both the pool and the file observe as all-zero
bytes and the all-zero byte image decodes to the type's zero value. -/
theorem C9_get_unwritten_slot_reads_zero (t : DataType) (name : String)
    (vs : List Value) (r : Nat) (hr : vs.length ≤ r) :
    (columnGet (appendAll (mkColumn name t) Sys.init vs).1
      (appendAll (mkColumn name t) Sys.init vs).2 r).1
      = zeroValueOf t :=
  columnGet_appendAll_ge t name vs r hr

/-- Witness for C9: reading record 5 of an `INT32` column holding two
records yields 0. -/
theorem C9_witness :
    ([Value.i32 3, Value.i32 4] : List Value).length ≤ 5
      ∧ (columnGet (appendAll (mkColumn "t/c" DataType.INT32) Sys.init
            [Value.i32 3, Value.i32 4]).1
          (appendAll (mkColumn "t/c" DataType.INT32) Sys.init
            [Value.i32 3, Value.i32 4]).2 5).1
        = zeroValueOf DataType.INT32 :=
  ⟨by decide, C9_get_unwritten_slot_reads_zero DataType.INT32 "t/c"
    [Value.i32 3, Value.i32 4] 5 (by decide)⟩

/-- C10: entries of an `insert_row` row map whose name is not a declared
column have no effect — the resulting table and substrate state equal
those produced by the same call with the unknown entries removed — and
`row_count` increments by exactly one.  `insertRow` only ever reads the
row map at declared column names. -/
theorem C10_insert_row_ignores_unknown_keys (tb : DiskBasedTable) (s : Sys)
    (row : List (String × Value)) :
    insertRow tb s (rowRestrict tb row) = insertRow tb s row
      ∧ (insertRow tb s row).1.row_count = tb.row_count + 1 :=
  ⟨insertRow_restrict tb s row, rfl⟩

end MiniDB
